import Mathlib

/-!
Verification development for the Mockoon Docker runtime
(bootstrap reconciler, storage-key sanitizer, storage HTTP API,
process supervisor, client persistence layer, fallback SHA-1).

Conventions of the shallow embedding:
* JavaScript strings are modelled as Lean `String` / `List Char`.
* JSON values are modelled by the inductive `Json` below; a file on disk is
  modelled as `FileData`: either the serialization of a JSON value
  (`FileData.jsonData j`) or unparsable/whitespace-only content
  (`FileData.badData`).  `JSON.parse (JSON.stringify x) = x` for the values in
  scope, which is what this abstraction encodes.
* Machine integers: the SHA-1 code uses JavaScript 32-bit coercions (`>>> 0`,
  `|`, `<<`); these are modelled over `Nat` with explicit `% 2 ^ 32`.
* Fallible code returns `Except` / `Option`.
-/

namespace Mockoon

/-! ## JSON model -/

/-- JSON values as produced by `JSON.parse`.  Numbers are modelled as `Int`
(the program never computes with fractional JSON numbers). -/
inductive Json where
  | null
  | bool (b : Bool)
  | num (n : Int)
  | str (s : String)
  | arr (elems : List Json)
  | obj (fields : List (String × Json))
deriving Repr

/-- JavaScript truthiness of a parsed JSON value (`!x` negated). -/
def truthy : Json → Bool
  | .null => false
  | .bool b => b
  | .num n => n != 0
  | .str s => s != ""
  | .arr _ => true
  | .obj _ => true

/-- `typeof x === 'object'` for a parsed JSON value (true for `null`,
arrays and objects). -/
def typeofObject : Json → Bool
  | .null => true
  | .arr _ => true
  | .obj _ => true
  | _ => false

/-- Whether the value is `null`. -/
def isNullB : Json → Bool
  | .null => true
  | _ => false

/-- Whether the value is a JSON object (`{...}`). -/
def isObjB : Json → Bool
  | .obj _ => true
  | _ => false

/-- JavaScript property read `x[k]` on a parsed JSON value: `none` models
`undefined` (missing field, or any access on a non-object). -/
def getField : Json → String → Option Json
  | .obj fields, k => fields.lookup k
  | _, _ => none

/-- Update-or-append in an association list, preserving insertion order:
the semantics of JavaScript property assignment on an object. -/
def setAssoc {α : Type} : List (String × α) → String → α → List (String × α)
  | [], k, v => [(k, v)]
  | (k', v') :: rest, k, v =>
      if k' = k then (k, v) :: rest else (k', v') :: setAssoc rest k v

/-- Remove a key from an association list (`fsp.rm`, IndexedDB `delete`). -/
def removeAssoc {α : Type} (l : List (String × α)) (k : String) :
    List (String × α) :=
  l.filter (fun p => p.1 != k)

/-- JavaScript property assignment `x[k] = v` as reflected in the value later
serialized by `JSON.stringify`: on an object the field is updated in place or
appended; on an array (or a primitive) an expando property would be dropped by
`JSON.stringify`, so the serialized value is unchanged. -/
def setField : Json → String → Json → Json
  | .obj fields, k, v => .obj (setAssoc fields k v)
  | j, _, _ => j

/-- The field value if present, else JavaScript `undefined` collapsed to
`Json.null` (only used where the field is known to be present). -/
def getFieldD (j : Json) (k : String) : Json :=
  (getField j k).getD .null

/-- Is the value a JavaScript primitive (compared by value under `===`)?
Objects and arrays are compared by reference instead. -/
def isPrimitive : Json → Bool
  | .null | .bool _ | .num _ | .str _ => true
  | _ => false

/-- JavaScript strict equality `===` between two parsed JSON values that stem
from distinct parses / distinct constructions.  Primitives compare by value;
two composite values (objects/arrays) from distinct parses are never
reference-equal, hence `false`.  In the reconciliation code below every
compared pair of composite values comes from distinct parses or distinct
freshly-built objects, so this function is faithful there. -/
def jsStrictEq : Json → Json → Bool
  | .null, .null => true
  | .bool a, .bool b => a == b
  | .num a, .num b => a == b
  | .str a, .str b => a == b
  | _, _ => false

/-- `===` lifted to possibly-`undefined` operands
(`undefined === undefined` is `true`). -/
def jsStrictEqOpt : Option Json → Option Json → Bool
  | some a, some b => jsStrictEq a b
  | none, none => true
  | _, _ => false

/-! ## Storage-key sanitizer (`sanitizeStorageKey` / `ensureJsonExtension`,
src/unnamed/part_000 lines 65-86) -/

/-- `value.replace(/\\/g, '/')`: normalize backslashes to forward slashes. -/
def jsReplaceBackslashes (l : List Char) : List Char :=
  l.map (fun c => if c = '\\' then '/' else c)

/-- JavaScript `String.prototype.split` with a one-character separator:
the pieces between separator occurrences, including leading/trailing empty
pieces.  Always returns a non-empty list. -/
def jsSplitChar (sep : Char) : List Char → List (List Char)
  | [] => [[]]
  | c :: rest =>
      if c = sep then [] :: jsSplitChar sep rest
      else
        match jsSplitChar sep rest with
        | [] => [[c]]
        | piece :: pieces => (c :: piece) :: pieces

/-- The character class `[a-zA-Z0-9_.-]` of the sanitizer's regex. -/
def allowedChar (c : Char) : Bool :=
  ('a' ≤ c && c ≤ 'z') || ('A' ≤ c && c ≤ 'Z') || ('0' ≤ c && c ≤ '9') ||
    c = '_' || c = '.' || c = '-'

/-- `sanitizeStorageKey` (part_000 lines 65-74), over `List Char`:
empty input yields empty; otherwise take the final `/`-segment of the
backslash-normalized input, strip disallowed characters, and fall back to the
unstripped segment when stripping empties it. -/
def sanitizeStorageKeyL (l : List Char) : List Char :=
  if l = [] then []
  else
    let lastSegment := (jsSplitChar '/' (jsReplaceBackslashes l)).getLastD []
    let sanitized := lastSegment.filter allowedChar
    if sanitized = [] then lastSegment else sanitized

/-- `sanitizeStorageKey` on `String`. -/
def sanitizeStorageKey (value : String) : String :=
  String.mk (sanitizeStorageKeyL value.data)

/-- ASCII lowercasing, modelling `String.prototype.toLowerCase` for the
purposes of the `.json` suffix test.  (Full Unicode simple lowercasing can
only differ on characters outside `[A-Za-z]`, and no character lowercases to
`'.'`, so the suffix test below agrees with the JavaScript one on every
reachable input: the fallback segment never contains `'.'`.) -/
def jsToLowerChar (c : Char) : Char :=
  if 'A' ≤ c && c ≤ 'Z' then Char.ofNat (c.toNat + 32) else c

/-- `value.toLowerCase().endsWith('.json')`. -/
def endsWithJsonL (l : List Char) : Bool :=
  List.isSuffixOf ".json".data (l.map jsToLowerChar)

/-- `ensureJsonExtension` (part_000 lines 76-86), over `List Char`. -/
def ensureJsonExtensionL (l : List Char) : List Char :=
  let sanitized := sanitizeStorageKeyL l
  if sanitized = [] then "environment.json".data
  else if endsWithJsonL sanitized then sanitized
  else sanitized ++ ".json".data

/-- `ensureJsonExtension` on `String`. -/
def ensureJsonExtension (value : String) : String :=
  String.mk (ensureJsonExtensionL value.data)

/-! ## Fallback SHA-1 (src/unnamed/part_001) -/

/-- One JavaScript 32-bit word. -/
def w32 : Nat := 2 ^ 32

/-- `((value << 1) | (value >>> 31)) >>> 0` and
`((b << 30) | (b >>> 2)) >>> 0`: left-rotation of a 32-bit word. -/
def rotl32 (v : Nat) (n : Nat) : Nat :=
  ((v <<< n) ||| (v >>> (32 - n))) % w32

/-- `TextEncoder().encode` for the ASCII inputs the claim is about
(UTF-8 of an ASCII string is its code points). -/
def encodeAscii (s : String) : List Nat :=
  s.data.map Char.toNat

/-- The zero-filled `Uint32Array` holding the padded message, after the
byte-packing loop, the `0x80` padding byte and the 64-bit length words
(part_001 lines 12-23). -/
def sha1PaddedWords (messageBytes : List Nat) : List Nat :=
  let messageLength := messageBytes.length
  let wordsCount := (((messageLength + 8) >>> 6) <<< 4) + 16
  let packed :=
    (List.range messageLength).foldl
      (fun (ws : List Nat) index =>
        let b := messageBytes.getD index 0
        ws.set (index >>> 2)
          ((ws.getD (index >>> 2) 0 ||| (b <<< (24 - ((index &&& 3) <<< 3)))) % w32))
      (List.replicate wordsCount 0)
  let padded :=
    packed.set (messageLength >>> 2)
      ((packed.getD (messageLength >>> 2) 0 |||
        (0x80 <<< (24 - ((messageLength &&& 3) <<< 3)))) % w32)
  let bitLength := messageLength * 8
  (padded.set (wordsCount - 1) (bitLength % w32)).set (wordsCount - 2)
    ((bitLength / 0x100000000) % w32)

/-- The 80-entry message schedule `w` for one block (part_001 lines 34-41). -/
def sha1Schedule (block : List Nat) : List Nat :=
  (List.range 80).foldl
    (fun (w : List Nat) i =>
      if i < 16 then w ++ [block.getD i 0 % w32]
      else
        let value :=
          w.getD (i - 3) 0 ^^^ w.getD (i - 8) 0 ^^^ w.getD (i - 14) 0 ^^^
            w.getD (i - 16) 0
        w ++ [rotl32 value 1])
    []

/-- The round function pair `(f, k)` (part_001 lines 49-65). -/
def sha1FK (i : Nat) (b c d : Nat) : Nat × Nat :=
  if i < 20 then ((b &&& c) ||| ((b ^^^ (w32 - 1)) &&& d), 0x5a827999)
  else if i < 40 then (b ^^^ c ^^^ d, 0x6ed9eba1)
  else if i < 60 then ((b &&& c) ||| (b &&& d) ||| (c &&& d), 0x8f1bbcdc)
  else (b ^^^ c ^^^ d, 0xca62c1d6)

/-- Compression of one 16-word block into the running hash state
(part_001 lines 43-82). -/
def sha1Compress (h : Nat × Nat × Nat × Nat × Nat) (block : List Nat) :
    Nat × Nat × Nat × Nat × Nat :=
  let w := sha1Schedule block
  let (h0, h1, h2, h3, h4) := h
  let final :=
    (List.range 80).foldl
      (fun (st : Nat × Nat × Nat × Nat × Nat) i =>
        let (a, b, c, d, e) := st
        let (f, k) := sha1FK i b c d
        let temp := (rotl32 a 5 + f + e + k + w.getD i 0) % w32
        (temp, a, rotl32 b 30, c, d))
      (h0, h1, h2, h3, h4)
  let (a, b, c, d, e) := final
  ((h0 + a) % w32, (h1 + b) % w32, (h2 + c) % w32, (h3 + d) % w32,
    (h4 + e) % w32)

/-- `value.toString(16).padStart(8, '0')`: 8 lowercase hex digits. -/
def hex8 (n : Nat) : List Char :=
  (List.range 8).map (fun i => Nat.digitChar ((n >>> ((7 - i) * 4)) % 16))

/-- The fallback `sha1` implementation (part_001 lines 7-87): lowercase hex
digest of the message. -/
def sha1 (message : String) : String :=
  let messageBytes := encodeAscii message
  let words := sha1PaddedWords messageBytes
  let wordsCount := words.length
  let (h0, h1, h2, h3, h4) :=
    (List.range (wordsCount / 16)).foldl
      (fun h blockIndex =>
        sha1Compress h ((words.drop (blockIndex * 16)).take 16))
      (0x67452301, 0xefcdab89, 0x98badcfe, 0x10325476, 0xc3d2e1f0)
  String.mk (hex8 h0 ++ hex8 h1 ++ hex8 h2 ++ hex8 h3 ++ hex8 h4)

/-- Modelled from the spec: the platform-provided digest
(`window.crypto.subtle.digest('SHA-1', ...)`, outside src/) on the two claimed
inputs; the spec (§8 property 8) pins these to the well-known FIPS 180-4
reference outputs, which are exactly these hexadecimal strings. -/
def platformSha1Reference : List (String × String) :=
  [("", "da39a3ee5e6b4b0d3255bfef95601890afd80709"),
   ("abc", "a9993e364706816aba3e25717850c26c9cd0d89d")]

/-! ## Runtime configuration and data-file parsing (part_000 lines 15-34,
88-117, 199-210) -/

/-- The immutable runtime configuration resolved at process start from
environment variables.  String-valued options use `""` for "unset" (an empty
environment variable is falsy in the JavaScript checks). -/
structure Config where
  dataDir : String
  envSubdir : String
  dataFiles : String
  defaultPort : Int
  defaultEnvName : String
  envNames : String
  cliWatch : Bool
  cliDisableLogToFile : Bool
  cliPollingInterval : String
  cliExtraArgs : List String

/-- The JavaScript whitespace characters `trim` removes that can occur here
(ASCII whitespace plus NBSP/BOM; JavaScript also trims the rarer Unicode
space characters, which never affect the verified properties). -/
def jsWhitespace (c : Char) : Bool :=
  c = ' ' || c = '\t' || c = '\n' || c = '\r' || c = '\x0b' || c = '\x0c' ||
    c = '\u00A0' || c = '\uFEFF'

/-- `String.prototype.trim`. -/
def jsTrimL (l : List Char) : List Char :=
  (((l.dropWhile jsWhitespace).reverse).dropWhile jsWhitespace).reverse

/-- `parseDataFileNames` (part_000 lines 199-204): split the configured value
on commas, trim each item, force a `.json` name, drop falsy entries. -/
def parseDataFileNames (value : String) : List String :=
  (((jsSplitChar ',' value.data).map
      (fun item => ensureJsonExtensionL (jsTrimL item))).filter
    (fun s => s ≠ [])).map String.mk

/-- `path.join(DATA_DIR, ENV_SUBDIR)` modelled as slash-joining (the
configured names contain no traversal segments for `path.join` to
normalize away). -/
def envDirOf (cfg : Config) : String :=
  cfg.dataDir ++ "/" ++ cfg.envSubdir

/-- `resolveDataFiles` (part_000 lines 206-210). -/
def resolveDataFiles (cfg : Config) (fileNames : List String) : List String :=
  fileNames.map (fun fileName => envDirOf cfg ++ "/" ++ fileName)

/-- Result of `buildDefaultCliArgs`: either the fatal
"No data files configured" throw or the assembled argument list. -/
inductive CliArgs where
  | fatalNoDataFiles
  | args (list : List String)
deriving Repr

/-- `buildDefaultCliArgs` (part_000 lines 88-117); `resolvedDataFiles` is the
optional argument (`??` falls back to re-resolving the configured names). -/
def buildDefaultCliArgs (cfg : Config) (resolvedDataFiles : Option (List String)) :
    CliArgs :=
  let dataFiles :=
    match resolvedDataFiles with
    | some fs => fs
    | none => resolveDataFiles cfg (parseDataFileNames cfg.dataFiles)
  if dataFiles.length = 0 then .fatalNoDataFiles
  else
    let a0 := ["start", "--data"] ++ dataFiles
    let a1 := if cfg.cliWatch then a0 ++ ["--watch"] else a0
    let a2 := if cfg.cliDisableLogToFile then a1 ++ ["--disable-log-to-file"] else a1
    let a3 :=
      if cfg.cliPollingInterval ≠ "" then
        a2 ++ ["--polling-interval", cfg.cliPollingInterval]
      else a2
    let a4 := if cfg.cliExtraArgs.length ≠ 0 then a3 ++ cfg.cliExtraArgs else a3
    .args a4

/-! ## Process supervisor (part_000 lines 150-196)

The runtime is single-threaded; "concurrent" shutdown triggers are delivered
as a sequence of callback invocations.  `SupState` records the observable
calls: `server.close` invocations, `cliProcess.kill` invocations and the exit
codes passed to `process.exit` by the close callback (the callback of each
`server.close` call fires exactly once). -/

/-- A shutdown trigger: a termination signal handler firing, the child's
`exit` event (with its code/signal), an uncaught exception, or an unhandled
rejection. -/
inductive SupTrigger where
  | termSignal
  | childExit (code : Option Int) (signal : Bool)
  | uncaughtException
  | unhandledRejection
deriving Repr

/-- Observable supervisor state. -/
structure SupState where
  shuttingDown : Bool
  childKilled : Bool
  serverCloseCalls : Nat
  childKillCalls : Nat
  exitCodes : List Int
deriving Repr

/-- State when `Running` is first reached. -/
def initSupState : SupState :=
  { shuttingDown := false, childKilled := false, serverCloseCalls := 0,
    childKillCalls := 0, exitCodes := [] }

/-- The `shutdown` closure (part_000 lines 152-166): guarded by
`shuttingDown`; closes the listener (whose callback exits with `exitCode`)
and signals the child if not already killed. -/
def shutdown (exitCode : Int) (s : SupState) : SupState :=
  if s.shuttingDown then s
  else
    { shuttingDown := true,
      childKilled := true,
      serverCloseCalls := s.serverCloseCalls + 1,
      childKillCalls := if s.childKilled then s.childKillCalls else s.childKillCalls + 1,
      exitCodes := s.exitCodes ++ [exitCode] }

/-- One trigger delivery (part_000 lines 168-196): the child-exit handler
returns early when already shutting down, signals choose code 0, a child
self-exit propagates `code ?? 0` (0 when the child died of a signal), and
uncaught exceptions / unhandled rejections choose code 1. -/
def supStep (s : SupState) : SupTrigger → SupState
  | .termSignal => shutdown 0 s
  | .childExit code signal =>
      if s.shuttingDown then s
      else if signal then shutdown 0 s
      else shutdown (code.getD 0) s
  | .uncaughtException => shutdown 1 s
  | .unhandledRejection => shutdown 1 s

/-- Deliver a sequence of triggers starting from the running state. -/
def runSup (triggers : List SupTrigger) : SupState :=
  triggers.foldl supStep initSupState

/-! ## Embedded-database transaction scoping
(main-api.service.ts lines 461-556)

Handler registrations are data read off the source; the IndexedDB event
model (a failed request fires the request's `error` event, then the
transaction's `error` and `abort` events, and the `complete` event never
fires; a successful transaction fires the request's `success` event and then
`complete`) determines which registered callbacks run. -/

/-- Actions a registered callback can perform. -/
inductive IdbAction where
  | resolveP
  | rejectP
  | closeDb
deriving Repr, DecidableEq

/-- The callbacks each operation registers, per event. -/
structure TxHandlers where
  reqOnSuccess : List IdbAction
  reqOnError : List IdbAction
  txOnComplete : List IdbAction
  txOnError : List IdbAction
  txOnAbort : List IdbAction

/-- `deleteEnvironmentDataIndexedDb` (lines 482-504): resolve on request
success, reject on request error, close the connection in the transaction's
`complete` handler; no `error`/`abort` transaction handlers. -/
def deleteEnvHandlers : TxHandlers :=
  { reqOnSuccess := [.resolveP], reqOnError := [.rejectP],
    txOnComplete := [.closeDb], txOnError := [], txOnAbort := [] }

/-- `writeEnvironmentDataIndexedDb` (lines 506-532): additionally rejects in
the transaction's `error` handler; still closes only on `complete`. -/
def writeEnvHandlers : TxHandlers :=
  { reqOnSuccess := [.resolveP], reqOnError := [.rejectP],
    txOnComplete := [.closeDb], txOnError := [.rejectP], txOnAbort := [] }

/-- `readEnvironmentDataIndexedDb` (lines 534-556): same shape as delete. -/
def readEnvHandlers : TxHandlers :=
  { reqOnSuccess := [.resolveP], reqOnError := [.rejectP],
    txOnComplete := [.closeDb], txOnError := [], txOnAbort := [] }

/-- How a scoped transaction can end. -/
inductive TxOutcome where
  | success
  | requestFailure
deriving Repr

/-- The callbacks that fire for a given outcome, in IndexedDB event order. -/
def firedActions (h : TxHandlers) : TxOutcome → List IdbAction
  | .success => h.reqOnSuccess ++ h.txOnComplete
  | .requestFailure => h.reqOnError ++ h.txOnError ++ h.txOnAbort

/-- Whether the operation's `db.close()` runs on the given exit path. -/
def connectionClosed (h : TxHandlers) (o : TxOutcome) : Bool :=
  (firedActions h o).contains .closeDb

/-- The claimed safety property: the connection is released on every exit
path. -/
def closesOnEveryPath (h : TxHandlers) : Prop :=
  ∀ o : TxOutcome, connectionClosed h o = true

/-! ## On-disk store -/

/-- The content of one file: either the `JSON.stringify` serialization of a
value, or content that `JSON.parse` rejects (also covering whitespace-only
content, which the settings reader treats the same way). -/
inductive FileData where
  | jsonData (j : Json)
  | badData
deriving Repr

/-- The files the bootstrap touches: the environment files inside
`<dataDir>/<envSubdir>/` keyed by file name, and the singleton
`<dataDir>/settings.json`. -/
structure Store where
  envFiles : List (String × FileData)
  settings : Option FileData
deriving Repr

/-- Read an environment file by name (`none` is ENOENT). -/
def lookupFile (files : List (String × FileData)) (name : String) :
    Option FileData :=
  files.lookup name

/-- A store with no files (a fresh data directory). -/
def emptyStore : Store := { envFiles := [], settings := none }

/-! ## Bootstrap reconciler (part_000 lines 212-405) -/

/-- Errors that abort the bootstrap: an environment file that parses but has
no valid `uuid`, or one that does not parse. -/
inductive BootError where
  | invalidEnv (fileName : String)
  | parseError (fileName : String)
deriving Repr

/-- Truthiness of a property (`!x.k` negated): false when the field is
missing (`undefined`). -/
def truthyField (j : Json) (k : String) : Bool :=
  match getField j k with
  | some v => truthy v
  | none => false

/-- The validation applied to a parsed environment file (part_000 line 264):
`parsed` truthy, of object type, with a truthy `uuid`. -/
def validEnvB (j : Json) : Bool :=
  truthy j && typeofObject j && truthyField j "uuid"

/-- `resolvedDefaultName` (part_000 lines 298-306): the positional override
from the comma-separated names option; `none` models `null`. -/
def resolvedDefaultName (cfg : Config) (index : Nat) : Option String :=
  if cfg.envNames = "" then none
  else
    let parts := (jsSplitChar ',' cfg.envNames.data).map String.mk
    match parts.getD index "" with
    | "" => none
    | p => some (String.mk (jsTrimL p.data))

/-- `resolvedSuffix` (part_000 lines 308-310). -/
def resolvedSuffix (index : Nat) : String :=
  if index = 0 then "" else "#" ++ toString (index + 1)

/-- The name given to a synthesized environment (part_000 lines 283-285):
the positional override when truthy, else the default name plus suffix. -/
def chosenEnvName (cfg : Config) (index : Nat) : String :=
  match resolvedDefaultName cfg index with
  | some s => if s = "" then cfg.defaultEnvName ++ " " ++ resolvedSuffix index else s
  | none => cfg.defaultEnvName ++ " " ++ resolvedSuffix index

/-- Modelled from the spec: `BuildEnvironment` comes from the external
`@mockoon/commons` package (not under src/).  Per the spec (§3) an
environment document is an opaque JSON object whose only fields the core
interprets are a stable string `uuid` and an integer `port` assigned at
creation; the `uuid` is produced by a generator, modelled here as the
caller-supplied `uuid` argument. -/
def BuildEnvironment (name : String) (port : Int) (uuid : String) : Json :=
  .obj [("uuid", .str uuid), ("name", .str name), ("port", .num port)]

/-- `ensureEnvironmentFile` (part_000 lines 251-296) for the file `fileName`
at loop position `index`: a parsable file must carry a valid `uuid`
(else `ValidationError`); an unparsable file is a fatal parse error; a
missing file is synthesized via `BuildEnvironment` with port
`DEFAULT_PORT + index` and uuid `supply index`, and written.  Returns the
environment document, the updated environment directory and the number of
file writes performed (0 or 1). -/
def ensureEnvironmentFile (cfg : Config) (supply : Nat → String)
    (files : List (String × FileData)) (fileName : String) (index : Nat) :
    Except BootError (Json × List (String × FileData) × Nat) :=
  match lookupFile files fileName with
  | some (.jsonData parsed) =>
      if validEnvB parsed then .ok (parsed, files, 0)
      else .error (.invalidEnv fileName)
  | some .badData => .error (.parseError fileName)
  | none =>
      let environment :=
        BuildEnvironment (chosenEnvName cfg index) (cfg.defaultPort + index)
          (supply index)
      .ok (environment, setAssoc files fileName (.jsonData environment), 1)

/-- The per-file loop of `ensureInitialState` (part_000 lines 223-239),
returning the environment documents in file order, the updated directory and
the total write count. -/
def ensureEnvFiles (cfg : Config) (supply : Nat → String) :
    List String → Nat → List (String × FileData) →
    Except BootError (List Json × List (String × FileData) × Nat)
  | [], _, files => .ok ([], files, 0)
  | fileName :: rest, index, files =>
      match ensureEnvironmentFile cfg supply files fileName index with
      | .error e => .error e
      | .ok (env, files1, n1) =>
          match ensureEnvFiles cfg supply rest (index + 1) files1 with
          | .error e => .error e
          | .ok (envs, files2, n2) => .ok (env :: envs, files2, n1 + n2)

/-- The descriptor pushed for each environment (part_000 lines 233-238). -/
def mkDescriptor (uuid : Json) (fileName : String) : Json :=
  .obj [("uuid", uuid), ("path", .str fileName), ("cloud", .bool false),
        ("lastServerHash", .null)]

/-- The descriptor list built in file order (part_000 lines 221-239), one
descriptor per file, carrying the environment document's `uuid`. -/
def mkDescriptors (fileNames : List String) (envs : List Json) : List Json :=
  (fileNames.zip envs).map (fun p => mkDescriptor (getFieldD p.2 "uuid") p.1)

/-- Modelled from the spec: `defaultMaxTransactionLogs` is a constant of the
external `@mockoon/commons` package (not under src/); its numeric value is
irrelevant to every verified property. -/
def defaultMaxTransactionLogs : Int := 100

/-- Modelled from the spec: `defaultEnvironmentVariablesPrefix` is a constant
of the external `@mockoon/commons` package (not under src/); its value is
irrelevant to every verified property. -/
def defaultEnvironmentVariablesPrefix : String := "MOCKOON_"

/-- `buildDefaultSettings` (part_000 lines 374-405). -/
def buildDefaultSettings (descriptors : List Json) : Json :=
  .obj
    [("welcomeShown", .bool true),
     ("maxLogsPerEnvironment", .num defaultMaxTransactionLogs),
     ("truncateRouteName", .bool true),
     ("mainMenuSize", .num 100),
     ("secondaryMenuSize", .num 200),
     ("fakerLocale", .str "en"),
     ("fakerSeed", .null),
     ("lastChangelog", .str "0.0.0"),
     ("environments", .arr descriptors),
     ("disabledRoutes", .obj []),
     ("collapsedFolders", .obj []),
     ("enableTelemetry", .bool false),
     ("storagePrettyPrint", .bool true),
     ("fileWatcherEnabled", .str "disabled"),
     ("dialogWorkingDir", .str ""),
     ("startEnvironmentsOnLoad", .bool true),
     ("logTransactions", .bool false),
     ("environmentsCategoriesOrder", .arr [.str "local", .str "cloud"]),
     ("environmentsCategoriesCollapsed",
        .obj [("local", .bool false), ("cloud", .bool false)]),
     ("envVarsPrefix", .str defaultEnvironmentVariablesPrefix),
     ("activeEnvironmentUuid",
        match descriptors with
        | d :: _ => getFieldD d "uuid"
        | [] => .null),
     ("enableRandomLatency", .bool false),
     ("recentLocalEnvironments", .arr []),
     ("displayLogsIsoTimestamp", .bool false),
     ("deployPreferredRegion", .null)]

/-- `item.uuid === descriptor.uuid` (part_000 line 339). -/
def uuidMatches (item descriptor : Json) : Bool :=
  jsStrictEqOpt (getField item "uuid") (getField descriptor "uuid")

/-- `existing.path === descriptor.path` (negation of line 345's test). -/
def pathEq (item descriptor : Json) : Bool :=
  jsStrictEqOpt (getField item "path") (getField descriptor "path")

/-- `existing.path = descriptor.path` (part_000 line 346): in-place update of
the first uuid-matching element. -/
def updateFirstPath : List Json → Json → List Json
  | [], _ => []
  | item :: rest, descriptor =>
      if uuidMatches item descriptor then
        setField item "path" (getFieldD descriptor "path") :: rest
      else item :: updateFirstPath rest descriptor

/-- One iteration of the `descriptors.forEach` reconciliation
(part_000 lines 337-349) over the state (environments array, changed flag). -/
def reconcileStep (acc : List Json × Bool) (descriptor : Json) :
    List Json × Bool :=
  match acc.1.find? (fun item => uuidMatches item descriptor) with
  | none => (acc.1 ++ [descriptor], true)
  | some existing =>
      if pathEq existing descriptor then acc
      else (updateFirstPath acc.1 descriptor, true)

/-- The whole `forEach` loop. -/
def reconcileEnvs (descriptors : List Json) (acc : List Json × Bool) :
    List Json × Bool :=
  descriptors.foldl reconcileStep acc

/-- The parsed settings value (the `settings` local after
part_000 lines 313-326): `none` for a missing file, unparsable or
whitespace-only content, or the JSON literal `null`. -/
def parsedSettings : Option FileData → Option Json
  | none => none
  | some .badData => none
  | some (.jsonData j) => if isNullB j then none else some j

/-- `Array.isArray(settings.environments)` and its value
(part_000 lines 331-333): the existing array, or `[]` after the non-array
field is replaced. -/
def origEnvs (j : Json) : List Json :=
  match getField j "environments" with
  | some (.arr es) => es
  | _ => []

/-- The value `JSON.stringify` serializes after the in-place mutations of the
reconcile branch: for an object, the updated `environments` array and (when
newly set) `activeEnvironmentUuid`; for an array, expando properties are
dropped, leaving the original elements. -/
def writeBackSettings (j : Json) (finalEnvs : List Json) (setActive : Bool)
    (descriptors : List Json) : Json :=
  match j with
  | .obj _ =>
      let j1 := setField j "environments" (.arr finalEnvs)
      if setActive then
        setField j1 "activeEnvironmentUuid"
          (match descriptors with
           | d :: _ => getFieldD d "uuid"
           | [] => .null)
      else j1
  | _ => j

/-- `ensureSettingsFile` (part_000 lines 312-364) over the settings slot of
the store: returns the new slot and the number of settings writes (0 or 1). -/
def ensureSettingsFile (descriptors : List Json) (slot : Option FileData) :
    Option FileData × Nat :=
  match parsedSettings slot with
  | none => (some (.jsonData (buildDefaultSettings descriptors)), 1)
  | some j =>
      if truthy j && typeofObject j then
        let (finalEnvs, changed1) := reconcileEnvs descriptors (origEnvs j, false)
        let setActive :=
          !truthyField j "activeEnvironmentUuid" && descriptors.length != 0
        let changed := changed1 || setActive
        if changed then
          (some (.jsonData (writeBackSettings j finalEnvs setActive descriptors)), 1)
        else (slot, 0)
      else (some (.jsonData (buildDefaultSettings descriptors)), 1)

/-- The value `ensureInitialState` resolves (part_000 lines 243-248), minus
the two constant paths. -/
structure InitState where
  dataFileNames : List String
  descriptors : List Json
deriving Repr

/-- `ensureInitialState` (part_000 lines 212-249): parse the configured file
names, ensure each environment file, build the descriptor list in file order
and reconcile it into the settings document.  Returns the resolved state, the
new store and the total number of file writes performed.  (`fsp.mkdir` with
`recursive: true` on the existing directory tree performs no write and is not
counted.) -/
def ensureInitialState (cfg : Config) (supply : Nat → String) (s : Store) :
    Except BootError (InitState × Store × Nat) :=
  let fileNames := parseDataFileNames cfg.dataFiles
  match ensureEnvFiles cfg supply fileNames 0 s.envFiles with
  | .error e => .error e
  | .ok (envs, files1, envWrites) =>
      let descriptors := mkDescriptors fileNames envs
      let (slot1, settingsWrites) := ensureSettingsFile descriptors s.settings
      .ok ({ dataFileNames := fileNames, descriptors := descriptors },
           { envFiles := files1, settings := slot1 },
           envWrites + settingsWrites)

/-! ## Storage HTTP API: replace environment by id
(part_000 lines 491-515) -/

/-- The `PUT /environments/:id` handler: `body` is the parsed request body
(`none` models a missing body, i.e. `req.body` undefined).  Returns the HTTP
status and the updated environment directory.  (The `pretty` flag only
selects the serialization's indentation, which `FileData.jsonData` abstracts
over; filesystem write failures — the 500 branch — are outside this model.) -/
def putEnvironmentById (files : List (String × FileData)) (id : String)
    (body : Option Json) : Nat × List (String × FileData) :=
  let fileName := ensureJsonExtension id
  match body with
  | none => (400, files)
  | some payload =>
      if truthy payload && typeofObject payload then
        (204, setAssoc files fileName (.jsonData payload))
      else (400, files)

/-! ## Client persistence layer (main-api.service.ts)

The service's operations are interpreted against either the networked
backend (each operation is one HTTP round-trip against the storage API of
part_000, composed here with the server handlers) or the embedded local
backend (IndexedDB keyed by `uuid`, settings in `localStorage`). -/

/-- `ensureStorageKey` (main-api.service.ts lines 239-248) — the client-side
copy of the sanitizer, over `List Char`.  (`replaceAll('\\', '/')` /
`?? ''` coincide with part_000's `replace(/\\/g,'/')` / `|| ''`.) -/
def ensureStorageKeyL (l : List Char) : List Char :=
  if l = [] then []
  else
    let lastSegment := (jsSplitChar '/' (jsReplaceBackslashes l)).getLastD []
    let sanitized := lastSegment.filter allowedChar
    if sanitized = [] then lastSegment else sanitized

/-- `ensureStorageKey` on `String`. -/
def ensureStorageKey (value : String) : String :=
  String.mk (ensureStorageKeyL value.data)

/-- One persistence operation issued through the client layer. -/
inductive StorageOp where
  | readEnv (key : String)
  | writeEnv (environment : Json) (descriptorPath : Option String) (pretty : Bool)
  | deleteEnv (key : String)
  | readSettings
  | writeSettings (settings : Json) (pretty : Bool)

/-- The observable outcome of one operation: the environment value or the
`undefined` absent signal, the settings value or the `null` absent signal,
plain completion, or a thrown error. -/
inductive OpResult where
  | envData (value : Option Json)
  | settingsData (value : Option Json)
  | done
  | failure
deriving Repr

/-- The embedded local backend's state: the `environments` object store of
`mockoon-db` (string `uuid` keys — the only key type the operations here can
produce and look up) and the `appSettings` localStorage entry. -/
structure LocalStore where
  idb : List (String × Json)
  appSettings : Option Json

/-- A fresh browser profile. -/
def emptyLocalStore : LocalStore := { idb := [], appSettings := none }

/-- The networked backend: client fetch + server handler, one operation
(`readEnvironmentData` / `writeEnvironmentData` / `deleteEnvironmentData` /
`readSettingsData` / `writeSettingsData`, main-api.service.ts lines 299-459,
composed with the part_000 router lines 439-531).  A sanitized key that is
empty produces a URL outside the storage routes; those requests are modelled
as `failure` (for DELETE, whose 404 the client swallows, as `done`) and are
excluded by the parity hypotheses. -/
def runNetOp (s : Store) : StorageOp → OpResult × Store
  | .readEnv key =>
      let k := ensureStorageKey key
      if k = "" then (.failure, s)
      else
        let fileName := ensureJsonExtension k
        match lookupFile s.envFiles fileName with
        | none => (.envData none, s)
        | some (.jsonData j) => (.envData (some j), s)
        | some .badData => (.failure, s)
  | .writeEnv environment descriptorPath _pretty =>
      let targetPath :=
        match descriptorPath with
        | some p => p
        | none =>
            match getField environment "uuid" with
            | some (.str u) => u
            | _ => ""
      let k := ensureStorageKey targetPath
      if k = "" then (.failure, s)
      else
        let fileName := ensureJsonExtension k
        if truthy environment && typeofObject environment then
          (.done, { s with envFiles := setAssoc s.envFiles fileName (.jsonData environment) })
        else (.failure, s)
  | .deleteEnv key =>
      let k := ensureStorageKey key
      if k = "" then (.done, s)
      else (.done, { s with envFiles := removeAssoc s.envFiles (ensureJsonExtension k) })
  | .readSettings =>
      match s.settings with
      | none => (.settingsData none, s)
      | some .badData => (.failure, s)
      | some (.jsonData j) =>
          (.settingsData (if isNullB j then none else some j), s)
  | .writeSettings v _pretty =>
      let payload := if isNullB v then Json.obj [] else v
      (.done, { s with settings := some (.jsonData payload) })

/-- The embedded local backend, one operation
(`readEnvironmentDataIndexedDb` / `writeEnvironmentDataIndexedDb` /
`deleteEnvironmentDataIndexedDb` and the localStorage settings paths).
A `put` of a value without a string `uuid` has no valid in-line key and its
request errors (`failure`); `localStorage.getItem` of the serialized `null`
parses back to the absent signal. -/
def runLocOp (s : LocalStore) : StorageOp → OpResult × LocalStore
  | .readEnv key => (.envData (s.idb.lookup key), s)
  | .writeEnv environment _descriptorPath _pretty =>
      match getField environment "uuid" with
      | some (.str u) => (.done, { s with idb := setAssoc s.idb u environment })
      | _ => (.failure, s)
  | .deleteEnv key => (.done, { s with idb := removeAssoc s.idb key })
  | .readSettings =>
      match s.appSettings with
      | none => (.settingsData none, s)
      | some j => (.settingsData (if isNullB j then none else some j), s)
  | .writeSettings v _pretty => (.done, { s with appSettings := some v })

/-- Run a sequence of operations against the networked backend, collecting
the observable results. -/
def runNet : Store → List StorageOp → List OpResult × Store
  | s, [] => ([], s)
  | s, op :: ops =>
      let r := runNetOp s op
      let rs := runNet r.2 ops
      (r.1 :: rs.1, rs.2)

/-- Run a sequence of operations against the embedded local backend. -/
def runLoc : LocalStore → List StorageOp → List OpResult × LocalStore
  | s, [] => ([], s)
  | s, op :: ops =>
      let r := runLocOp s op
      let rs := runLoc r.2 ops
      (r.1 :: rs.1, rs.2)

/-- A key the sanitizer leaves unchanged (so both backends address the same
record) and that stays inside the storage routes. -/
def goodKey (k : String) : Bool :=
  (ensureStorageKey k == k) && (k != "")

/-- The record keys one operation uses: read/delete keys, and the `uuid` of
written environments. -/
def opKeys : StorageOp → List String
  | .readEnv k => [k]
  | .deleteEnv k => [k]
  | .writeEnv environment _ _ =>
      match getField environment "uuid" with
      | some (.str u) => [u]
      | _ => []
  | _ => []

/-- All record keys of a sequence. -/
def allOpKeys (ops : List StorageOp) : List String :=
  ops.flatMap opKeys

/-- Well-formedness of one operation for the parity statement: keys are
sanitizer-fixed points; a written environment is a JSON object with a string
`uuid`, and its descriptor path (the networked target) is absent or equal to
that `uuid`; settings payloads are JSON objects. -/
def wfOp : StorageOp → Bool
  | .readEnv k => goodKey k
  | .deleteEnv k => goodKey k
  | .writeEnv environment descriptorPath _ =>
      (match getField environment "uuid" with
       | some (.str u) =>
           goodKey u &&
             (match descriptorPath with
              | none => true
              | some p => p == u)
       | _ => false) && isObjB environment
  | .readSettings => true
  | .writeSettings v _ => isObjB v

/-- Whether the value is a JSON object or a JSON array (the parsed-body
shapes that satisfy the handler's `typeof payload === 'object'` test together
with truthiness). -/
def isObjOrArrB : Json → Bool
  | .obj _ => true
  | .arr _ => true
  | _ => false

/-- A descriptor is well-behaved for `===`-based reconciliation: it has
`uuid` and `path` fields and both compare equal to themselves under `===`
(i.e. they are primitives, so identity is by value). -/
def descriptorSelfOk (d : Json) : Bool :=
  uuidMatches d d && pathEq d d &&
    (getField d "uuid").isSome && (getField d "path").isSome

/-- A descriptor list is well-behaved: each descriptor is self-ok and no two
distinct descriptors have `===`-equal uuids. -/
def goodDescriptorsB : List Json → Bool
  | [] => true
  | d :: rest =>
      descriptorSelfOk d &&
        rest.all (fun d' => !uuidMatches d' d && !uuidMatches d d') &&
        goodDescriptorsB rest

/-- The environments array `L` already accounts for descriptor `d`: the first
uuid-match has the descriptor's path (so reconciling `d` changes nothing). -/
def foundWithPath (L : List Json) (d : Json) : Prop :=
  ∃ it, L.find? (fun item => uuidMatches item d) = some it ∧ pathEq it d = true

/-- The state the settings slot reaches after a completed reconciliation: a
serialized JSON object whose environments array accounts for every
descriptor, with a truthy active uuid whenever descriptors exist. -/
def settingsGood (descriptors : List Json) (slot : Option FileData) : Prop :=
  ∃ J, slot = some (.jsonData J) ∧ isObjB J = true ∧
    (∀ d ∈ descriptors, foundWithPath (origEnvs J) d) ∧
    (descriptors ≠ [] → truthyField J "activeEnvironmentUuid" = true)

/-- An environment file that bootstraps cleanly: present, parsable, valid. -/
def envFileOk (files : List (String × FileData)) (fileName : String)
    (env : Json) : Prop :=
  lookupFile files fileName = some (.jsonData env) ∧ validEnvB env = true

/-- The environment document synthesized for loop position `i`. -/
def createdEnv (cfg : Config) (supply : Nat → String) (i : Nat) : Json :=
  BuildEnvironment (chosenEnvName cfg i) (cfg.defaultPort + i) (supply i)

/-- The documents a fresh bootstrap (no pre-existing files) creates, in file
order starting at loop position `idx`. -/
def freshEnvs (cfg : Config) (supply : Nat → String) (idx : Nat) :
    List String → List Json
  | [] => []
  | _ :: rest => createdEnv cfg supply idx :: freshEnvs cfg supply (idx + 1) rest

/-- The descriptors a fresh bootstrap builds, in file order. -/
def freshDescriptors (supply : Nat → String) (idx : Nat) :
    List String → List Json
  | [] => []
  | n :: rest =>
      mkDescriptor (.str (supply idx)) n :: freshDescriptors supply (idx + 1) rest

/-! ## Concrete fixtures for closed witness/counterexample statements -/

/-- A concrete runtime configuration with one configured data file. -/
def oneFileCfg : Config :=
  { dataDir := "/data", envSubdir := "environments", dataFiles := "a",
    defaultPort := 3000, defaultEnvName := "Docker environment",
    envNames := "", cliWatch := true, cliDisableLogToFile := true,
    cliPollingInterval := "", cliExtraArgs := [] }

/-- A constant uuid supply. -/
def constSupply : Nat → String := fun _ => "u"

/-- The environment document `oneFileCfg` synthesizes at index 0. -/
def oneEnvDoc : Json := BuildEnvironment "Docker environment " 3000 "u"

/-- Its descriptor. -/
def oneDescriptor : Json := mkDescriptor (.str "u") "a.json"

/-- A store whose settings file holds the JSON array `[]`. -/
def arrSettingsStore : Store :=
  { envFiles := [], settings := some (.jsonData (.arr [])) }

/-- The store after one bootstrap run over `arrSettingsStore`. -/
def arrSettingsStore1 : Store :=
  { envFiles := [("a.json", .jsonData oneEnvDoc)],
    settings := some (.jsonData (.arr [])) }

/-- The store after one bootstrap run over the empty store. -/
def freshStore1 : Store :=
  { envFiles := [("a.json", .jsonData oneEnvDoc)],
    settings := some (.jsonData (buildDefaultSettings [oneDescriptor])) }

/-- The resolved state of those runs. -/
def oneInitState : InitState :=
  { dataFileNames := ["a.json"], descriptors := [oneDescriptor] }

/-- A configuration with two distinct configured data files. -/
def twoFileCfg : Config :=
  { dataDir := "/data", envSubdir := "environments", dataFiles := "a,b",
    defaultPort := 3000, defaultEnvName := "Docker environment",
    envNames := "", cliWatch := true, cliDisableLogToFile := true,
    cliPollingInterval := "", cliExtraArgs := [] }

/-- An injective uuid supply with non-empty values. -/
def idSupply : Nat → String := fun n => String.mk (List.replicate (n + 1) 'u')

/-- A store holding a parsable settings object with zero descriptors and no
environment files. -/
def objSettingsStore : Store :=
  { envFiles := [], settings := some (.jsonData (.obj [("environments", .arr [])])) }

/-- Correspondence of environment records between the two backends: for each
key in scope, the networked backend's file under the `.json`-completed name
holds exactly the serialization of the local backend's record. -/
def envKeyCorr (K : List String) (ns : Store) (ls : LocalStore) : Prop :=
  ∀ k ∈ K, lookupFile ns.envFiles (ensureJsonExtension k) =
    (ls.idb.lookup k).map FileData.jsonData

/-- Correspondence of the settings document: both absent, or both holding the
same JSON object. -/
def settingsCorr (ns : Store) (ls : LocalStore) : Prop :=
  (ns.settings = none ∧ ls.appSettings = none) ∨
  (∃ j, isObjB j = true ∧ ns.settings = some (.jsonData j) ∧
    ls.appSettings = some j)

/-- The full backend correspondence. -/
def backendCorr (K : List String) (ns : Store) (ls : LocalStore) : Prop :=
  envKeyCorr K ns ls ∧ settingsCorr ns ls

/-- The environment document of the parity counterexample. -/
def cexEnv : Json := .obj [("uuid", .str "u")]

/-- The parity counterexample: a write whose descriptor path differs from the
environment's uuid, followed by a read by uuid. -/
def cexOps : List StorageOp :=
  [.writeEnv cexEnv (some "p") true, .readEnv "u"]

/-- A well-formed operation sequence used as parity witness. -/
def parityOps : List StorageOp :=
  [.writeSettings (.obj [("welcomeShown", .bool true)]) true,
   .writeEnv (.obj [("uuid", .str "u")]) none true,
   .readEnv "u", .deleteEnv "u", .readEnv "u", .readSettings]

/-- The exit code the supervisor actually selects for the first trigger. -/
def amendedExitCode : SupTrigger → Int
  | .termSignal => 0
  | .childExit code signal => if signal then 0 else code.getD 0
  | .uncaughtException => 1
  | .unhandledRejection => 1

/-! # Theorems -/

/-! ## Sanitizer lemmas -/

theorem jsSplitChar_ne_nil (sep : Char) (l : List Char) :
    jsSplitChar sep l ≠ [] := by
  cases l with
  | nil => simp [jsSplitChar]
  | cons c rest =>
    simp only [jsSplitChar]
    split
    · simp
    · split <;> simp

theorem jsSplitChar_mem (sep : Char) (l : List Char) :
    ∀ p ∈ jsSplitChar sep l, ∀ c ∈ p, c ∈ l ∧ c ≠ sep := by
  induction l with
  | nil =>
    intro p hp c hc
    simp only [jsSplitChar, List.mem_singleton] at hp
    subst hp
    simp at hc
  | cons a rest ih =>
    intro p hp c hc
    simp only [jsSplitChar] at hp
    by_cases ha : a = sep
    · rw [if_pos ha] at hp
      rcases List.mem_cons.mp hp with h | h
      · subst h; simp at hc
      · have h2 := ih p h c hc
        exact ⟨List.mem_cons_of_mem _ h2.1, h2.2⟩
    · rw [if_neg ha] at hp
      rcases hsplit : jsSplitChar sep rest with _ | ⟨piece, pieces⟩
      · exact absurd hsplit (jsSplitChar_ne_nil sep rest)
      · rw [hsplit] at hp
        rcases List.mem_cons.mp hp with h | h
        · subst h
          rcases List.mem_cons.mp hc with h2 | h2
          · subst h2; exact ⟨List.mem_cons_self _ _, ha⟩
          · have hpmem : piece ∈ jsSplitChar sep rest := by
              rw [hsplit]; exact List.mem_cons_self _ _
            have h3 := ih piece hpmem c h2
            exact ⟨List.mem_cons_of_mem _ h3.1, h3.2⟩
        · have hpm : p ∈ jsSplitChar sep rest := by
            rw [hsplit]; exact List.mem_cons_of_mem _ h
          have h3 := ih p hpm c hc
          exact ⟨List.mem_cons_of_mem _ h3.1, h3.2⟩

theorem backslash_not_mem_jsReplaceBackslashes (l : List Char) :
    '\\' ∉ jsReplaceBackslashes l := by
  intro h
  rcases List.mem_map.mp h with ⟨d, _, hd⟩
  by_cases hdb : d = '\\'
  · rw [if_pos hdb] at hd; exact absurd hd (by decide)
  · rw [if_neg hdb] at hd; exact hdb hd

theorem sanitizeStorageKeyL_chars (l : List Char) :
    ∀ c ∈ sanitizeStorageKeyL l, c ≠ '/' ∧ c ≠ '\\' := by
  intro c hc
  simp only [sanitizeStorageKeyL] at hc
  split_ifs at hc with h0 h1
  · simp at hc
  · -- fallback branch: c is in the final segment
    have hmem : (jsSplitChar '/' (jsReplaceBackslashes l)).getLastD [] ∈
        [] :: jsSplitChar '/' (jsReplaceBackslashes l) :=
      List.getLastD_mem_cons _ _
    rcases List.mem_cons.mp hmem with h | h
    · rw [h] at hc; simp at hc
    · have h2 := jsSplitChar_mem '/' (jsReplaceBackslashes l) _ h c hc
      exact ⟨h2.2, fun hbs => backslash_not_mem_jsReplaceBackslashes l (hbs ▸ h2.1)⟩
  · -- stripped branch: c passed the allowed-character filter
    have hall : allowedChar c = true := List.of_mem_filter hc
    constructor <;> rintro rfl <;> simp [allowedChar] at hall

theorem ensureJsonExtensionL_chars (l : List Char) :
    ∀ c ∈ ensureJsonExtensionL l, c ≠ '/' ∧ c ≠ '\\' := by
  intro c hc
  simp only [ensureJsonExtensionL] at hc
  split_ifs at hc with h1 h2
  · revert hc
    have : ∀ c ∈ "environment.json".data, c ≠ '/' ∧ c ≠ '\\' := by decide
    exact this c
  · exact sanitizeStorageKeyL_chars l c hc
  · rcases List.mem_append.mp hc with h | h
    · exact sanitizeStorageKeyL_chars l c h
    · revert h
      have : ∀ c ∈ ".json".data, c ≠ '/' ∧ c ≠ '\\' := by decide
      exact this c

theorem isPrefixOf_self_append (a b : List Char) :
    a.isPrefixOf (a ++ b) = true := by
  induction a with
  | nil => simp [List.isPrefixOf]
  | cons x xs ih => simp [List.isPrefixOf, ih]

theorem isSuffixOf_append (a b : List Char) :
    List.isSuffixOf b (a ++ b) = true := by
  simp only [List.isSuffixOf, List.reverse_append]
  exact isPrefixOf_self_append b.reverse a.reverse

theorem endsWithJsonL_append (x : List Char) :
    endsWithJsonL (x ++ ".json".data) = true := by
  unfold endsWithJsonL
  rw [List.map_append]
  have h : ".json".data.map jsToLowerChar = ".json".data := by decide
  rw [h]
  exact isSuffixOf_append _ _

theorem endsWithJsonL_ensureJsonExtensionL (l : List Char) :
    endsWithJsonL (ensureJsonExtensionL l) = true := by
  simp only [ensureJsonExtensionL]
  split_ifs with h1 h2
  · decide
  · exact h2
  · exact endsWithJsonL_append _

theorem ensureJsonExtensionL_ne_nil (l : List Char) :
    ensureJsonExtensionL l ≠ [] := by
  simp only [ensureJsonExtensionL]
  split_ifs with h1 h2
  · decide
  · exact h1
  · simp

/-- C1: for every input string, the sanitization pipeline
(`sanitizeStorageKey` followed by `ensureJsonExtension`) yields a result
containing no `'/'` and no `'\'` character and ending in `.json`
case-insensitively; the empty input maps to the fixed default name
`environment.json`. -/
theorem c1_storage_key_confinement (value : String) :
    '/' ∉ (ensureJsonExtension value).data ∧
    '\\' ∉ (ensureJsonExtension value).data ∧
    endsWithJsonL (ensureJsonExtension value).data = true ∧
    (value = "" → ensureJsonExtension value = "environment.json") := by
  have hdata : (ensureJsonExtension value).data = ensureJsonExtensionL value.data := rfl
  refine ⟨?_, ?_, ?_, ?_⟩
  · rw [hdata]; intro h; exact (ensureJsonExtensionL_chars _ _ h).1 rfl
  · rw [hdata]; intro h; exact (ensureJsonExtensionL_chars _ _ h).2 rfl
  · rw [hdata]; exact endsWithJsonL_ensureJsonExtensionL _
  · rintro rfl; rfl

/-- Witness for C1 at the empty input. -/
theorem c1_storage_key_confinement_witness :
    '/' ∉ (ensureJsonExtension "").data ∧
    '\\' ∉ (ensureJsonExtension "").data ∧
    endsWithJsonL (ensureJsonExtension "").data = true ∧
    ensureJsonExtension "" = "environment.json" :=
  ⟨(c1_storage_key_confinement "").1, (c1_storage_key_confinement "").2.1,
   (c1_storage_key_confinement "").2.2.1,
   (c1_storage_key_confinement "").2.2.2 rfl⟩

/-! ## C10: data-file parsing totality -/

theorem parseDataFileNames_elems (value : String) :
    ∀ fileName ∈ parseDataFileNames value,
      fileName ≠ "" ∧ endsWithJsonL fileName.data = true := by
  intro fileName hmem
  simp only [parseDataFileNames] at hmem
  rcases List.mem_map.mp hmem with ⟨x, hx, hmk⟩
  have hxm := List.mem_of_mem_filter hx
  rcases List.mem_map.mp hxm with ⟨item, _, hitem⟩
  subst hmk
  constructor
  · intro hmkempty
    have : x = [] := congrArg String.data hmkempty
    rw [← hitem] at this
    exact ensureJsonExtensionL_ne_nil _ this
  · show endsWithJsonL x = true
    rw [← hitem]
    exact endsWithJsonL_ensureJsonExtensionL _

theorem parseDataFileNames_ne_nil (value : String) :
    parseDataFileNames value ≠ [] := by
  simp only [parseDataFileNames]
  intro h
  rw [List.map_eq_nil_iff] at h
  rw [List.filter_eq_self.mpr (by
    intro a ha
    rcases List.mem_map.mp ha with ⟨item, _, hitem⟩
    subst hitem
    simp [ensureJsonExtensionL_ne_nil])] at h
  exact jsSplitChar_ne_nil ',' value.data (List.map_eq_nil_iff.mp h)

/-- Counterexample to C10 as stated: `parseDataFileNames` can return a name
that does not end in the literal lowercase suffix `.json` (an uppercase
`.JSON` name is preserved unchanged). -/
theorem c10_counterexample :
    "A.JSON" ∈ parseDataFileNames "A.JSON" ∧
    List.isSuffixOf ".json".data "A.JSON".data = false := by
  constructor
  · decide
  · decide

/-- C10 (amended): for every configured data-files string,
`parseDataFileNames` returns a non-empty list of non-empty names, each ending
in `.json` case-insensitively; consequently the fatal
"No data files configured" branch of `buildDefaultCliArgs` is unreachable,
both with the resolved file list passed by combined mode and without it. -/
theorem c10_amended (cfg : Config) :
    parseDataFileNames cfg.dataFiles ≠ [] ∧
    (∀ fileName ∈ parseDataFileNames cfg.dataFiles,
      fileName ≠ "" ∧ endsWithJsonL fileName.data = true) ∧
    buildDefaultCliArgs cfg
        (some (resolveDataFiles cfg (parseDataFileNames cfg.dataFiles))) ≠
      CliArgs.fatalNoDataFiles ∧
    buildDefaultCliArgs cfg none ≠ CliArgs.fatalNoDataFiles := by
  have hne := parseDataFileNames_ne_nil cfg.dataFiles
  have hlen : (resolveDataFiles cfg (parseDataFileNames cfg.dataFiles)).length ≠ 0 := by
    simp only [resolveDataFiles, List.length_map]
    intro h
    exact hne (List.eq_nil_of_length_eq_zero h)
  refine ⟨hne, parseDataFileNames_elems cfg.dataFiles, ?_, ?_⟩
  · simp only [buildDefaultCliArgs]
    rw [if_neg hlen]
    simp
  · simp only [buildDefaultCliArgs]
    rw [if_neg hlen]
    simp

/-- Witness for C10 at a concrete configuration. -/
theorem c10_amended_witness :
    parseDataFileNames (Config.dataFiles
        { dataDir := "/data", envSubdir := "environments", dataFiles := "",
          defaultPort := 3000, defaultEnvName := "Docker environment",
          envNames := "", cliWatch := true, cliDisableLogToFile := true,
          cliPollingInterval := "", cliExtraArgs := [] }) ≠ [] ∧
    ("environment.json" ≠ "" ∧
      endsWithJsonL "environment.json".data = true) :=
  ⟨(c10_amended _).1,
   (c10_amended
      { dataDir := "/data", envSubdir := "environments", dataFiles := "",
        defaultPort := 3000, defaultEnvName := "Docker environment",
        envNames := "", cliWatch := true, cliDisableLogToFile := true,
        cliPollingInterval := "", cliExtraArgs := [] }).2.1
     "environment.json" (by decide)⟩

/-! ## C9: fallback SHA-1 reference digests -/

set_option maxRecDepth 100000 in
/-- C9: the fallback SHA-1 applied to the empty string and to "abc" yields
the FIPS 180-4 reference digests as lowercase hexadecimal, which are exactly
the outputs pinned for the platform-provided digest. -/
theorem c9_sha1_reference_digests :
    sha1 "" = "da39a3ee5e6b4b0d3255bfef95601890afd80709" ∧
    sha1 "abc" = "a9993e364706816aba3e25717850c26c9cd0d89d" ∧
    platformSha1Reference.all (fun p => sha1 p.1 == p.2) = true := by
  refine ⟨by decide, by decide, by decide⟩

/-! ## C5: embedded-database connection scoping -/

/-- C5: the embedded-database operations do NOT close their connection on
every exit path: each closes only in the transaction's `complete` handler,
so a failed request (which aborts the transaction) leaves the connection
open.  The success paths do close. -/
theorem c5_connection_leak_on_failure :
    connectionClosed deleteEnvHandlers TxOutcome.requestFailure = false ∧
    connectionClosed writeEnvHandlers TxOutcome.requestFailure = false ∧
    connectionClosed readEnvHandlers TxOutcome.requestFailure = false ∧
    connectionClosed deleteEnvHandlers TxOutcome.success = true ∧
    connectionClosed writeEnvHandlers TxOutcome.success = true ∧
    connectionClosed readEnvHandlers TxOutcome.success = true ∧
    ¬ closesOnEveryPath deleteEnvHandlers ∧
    ¬ closesOnEveryPath writeEnvHandlers ∧
    ¬ closesOnEveryPath readEnvHandlers := by
  refine ⟨rfl, rfl, rfl, rfl, rfl, rfl, ?_, ?_, ?_⟩ <;>
    exact fun h => absurd (h TxOutcome.requestFailure) (by decide)

/-! ## C6 / C7: supervisor exit-code policy and shutdown idempotence -/

theorem supStep_shuttingDown (s : SupState) (t : SupTrigger)
    (h : s.shuttingDown = true) : supStep s t = s := by
  cases t <;> simp [supStep, shutdown, h]

theorem foldl_supStep_shuttingDown (ts : List SupTrigger) (s : SupState)
    (h : s.shuttingDown = true) : ts.foldl supStep s = s := by
  induction ts with
  | nil => rfl
  | cons t ts ih => rw [List.foldl_cons, supStep_shuttingDown s t h]; exact ih

theorem supStep_init (t : SupTrigger) :
    supStep initSupState t =
      { shuttingDown := true, childKilled := true, serverCloseCalls := 1,
        childKillCalls := 1, exitCodes := [amendedExitCode t] } := by
  cases t with
  | childExit code signal =>
      cases signal <;> simp [supStep, shutdown, initSupState, amendedExitCode]
  | _ => simp [supStep, shutdown, initSupState, amendedExitCode]

theorem runSup_cons (t : SupTrigger) (ts : List SupTrigger) :
    runSup (t :: ts) =
      { shuttingDown := true, childKilled := true, serverCloseCalls := 1,
        childKillCalls := 1, exitCodes := [amendedExitCode t] } := by
  unfold runSup
  rw [List.foldl_cons, supStep_init, foldl_supStep_shuttingDown]
  rfl

/-- Counterexample to C6 as stated: an uncaught exception (with no child exit
code) makes the process exit with code 1, not with "the child's exit code or
0 if absent". -/
theorem c6_counterexample :
    (runSup [SupTrigger.uncaughtException]).exitCodes = [1] ∧ (1 : Int) ≠ 0 := by
  constructor
  · rw [runSup_cons]; rfl
  · decide

/-- C6 (amended): in every trigger sequence the first trigger alone picks the
exit code: a termination signal exits 0; a child self-exit propagates the
child's code (0 when the child died of a signal or has no code); an uncaught
exception or unhandled rejection exits 1. -/
theorem c6_amended_exit_code_policy (t : SupTrigger) (ts : List SupTrigger) :
    (runSup (t :: ts)).exitCodes = [amendedExitCode t] ∧
    (runSup (SupTrigger.termSignal :: ts)).exitCodes = [0] ∧
    (runSup (SupTrigger.childExit (some 17) false :: ts)).exitCodes = [17] ∧
    (runSup (SupTrigger.childExit none true :: ts)).exitCodes = [0] := by
  refine ⟨?_, ?_, ?_, ?_⟩ <;> rw [runSup_cons] <;> rfl

/-- C7: the shutdown transition body executes at most once for every trigger
interleaving — at most one listener close, one child kill and one exit call,
and exactly one of each once any trigger fires; in particular two termination
signals in quick succession cause exactly one listener-close and one
process-exit call. -/
theorem c7_shutdown_idempotent (ts : List SupTrigger) (t : SupTrigger) :
    (runSup ts).serverCloseCalls ≤ 1 ∧
    (runSup ts).exitCodes.length ≤ 1 ∧
    (runSup ts).childKillCalls ≤ 1 ∧
    (runSup (t :: ts)).serverCloseCalls = 1 ∧
    (runSup (t :: ts)).exitCodes.length = 1 ∧
    (runSup (t :: ts)).childKillCalls = 1 ∧
    (runSup (SupTrigger.termSignal :: SupTrigger.termSignal :: ts)).serverCloseCalls = 1 ∧
    (runSup (SupTrigger.termSignal :: SupTrigger.termSignal :: ts)).exitCodes.length = 1 := by
  have hcons : ∀ (u : SupTrigger) (us : List SupTrigger),
      (runSup (u :: us)).serverCloseCalls = 1 ∧
      (runSup (u :: us)).exitCodes.length = 1 ∧
      (runSup (u :: us)).childKillCalls = 1 := by
    intro u us
    rw [runSup_cons]
    exact ⟨rfl, rfl, rfl⟩
  refine ⟨?_, ?_, ?_, (hcons t ts).1, (hcons t ts).2.1, (hcons t ts).2.2,
    (hcons _ _).1, (hcons _ _).2.1⟩ <;>
    cases ts with
    | nil => simp [runSup, initSupState]
    | cons u us =>
        first
        | exact (hcons u us).1.le
        | exact (hcons u us).2.1.le
        | exact (hcons u us).2.2.le

/-! ## C8: replace-environment HTTP contract -/

/-- Counterexample to C8 as stated: a JSON array body is not a JSON object,
yet the handler responds 204 and persists it rather than responding 400. -/
theorem c8_counterexample :
    (putEnvironmentById [] "env" (some (Json.arr []))).1 = 204 ∧
    isObjB (Json.arr []) = false ∧
    (putEnvironmentById [] "env" (some (Json.arr []))).2 =
      [("env.json", FileData.jsonData (Json.arr []))] := by
  refine ⟨rfl, rfl, ?_⟩
  rfl

/-- C8 (amended): the handler responds 400 exactly when the body is missing
or is neither a JSON object nor a JSON array (i.e. null, a boolean, a number
or a string); otherwise it responds 204 and persists the payload under the
sanitized file name; on a 400 response no file is written. -/
theorem c8_amended (files : List (String × FileData)) (id : String)
    (body : Option Json) :
    ((putEnvironmentById files id body).1 = 400 ∨
      (putEnvironmentById files id body).1 = 204) ∧
    ((putEnvironmentById files id body).1 = 400 ↔
      body = none ∨ ∃ p, body = some p ∧ isObjOrArrB p = false) ∧
    ((putEnvironmentById files id body).1 = 400 →
      (putEnvironmentById files id body).2 = files) ∧
    ((putEnvironmentById files id body).1 = 204 →
      ∃ p, body = some p ∧
        (putEnvironmentById files id body).2 =
          setAssoc files (ensureJsonExtension id) (.jsonData p)) := by
  match body with
  | none => simp [putEnvironmentById]
  | some p =>
      cases p <;>
        simp [putEnvironmentById, truthy, typeofObject, isObjOrArrB]

/-- Witness for C8 at a concrete object body and at a missing body. -/
theorem c8_amended_witness :
    (putEnvironmentById [] "env" (some (Json.obj [("uuid", Json.str "u")]))).1 = 204 ∧
    (putEnvironmentById [] "env" none).1 = 400 ∧
    (putEnvironmentById [] "env" none).2 = [] := by
  have h := c8_amended [] "env" (some (Json.obj [("uuid", Json.str "u")]))
  have h2 := c8_amended [] "env" (none : Option Json)
  refine ⟨?_, ?_, ?_⟩
  · rcases h.1 with h400 | h204
    · exfalso
      rcases h.2.1.mp h400 with hnone | ⟨p, hp, hbad⟩
      · exact Option.noConfusion hnone
      · cases Option.some.inj hp
        simp [isObjOrArrB] at hbad
    · exact h204
  · exact h2.2.1.mpr (Or.inl rfl)
  · exact h2.2.2.1 (h2.2.1.mpr (Or.inl rfl))

/-! ## Association-list and strict-equality lemmas -/

theorem lookup_setAssoc {α : Type} (l : List (String × α)) (k k' : String)
    (v : α) :
    (setAssoc l k v).lookup k' = if k' = k then some v else l.lookup k' := by
  induction l with
  | nil =>
    by_cases h : k' = k
    · simp [setAssoc, List.lookup, h]
    · have hb : (k' == k) = false := beq_eq_false_iff_ne.mpr h
      simp [setAssoc, List.lookup, h, hb]
  | cons p rest ih =>
    obtain ⟨k0, v0⟩ := p
    by_cases h0 : k0 = k
    · subst h0
      by_cases h : k' = k0
      · simp [setAssoc, List.lookup, h]
      · have hb : (k' == k0) = false := beq_eq_false_iff_ne.mpr h
        simp [setAssoc, List.lookup, h, hb]
    · by_cases h : k' = k0
      · subst h
        have hk : ¬ k' = k := h0
        simp [setAssoc, List.lookup, h0, hk]
      · have hb : (k' == k0) = false := beq_eq_false_iff_ne.mpr h
        simp [setAssoc, List.lookup, h0, h, hb, ih]

theorem lookup_removeAssoc {α : Type} (l : List (String × α)) (k k' : String) :
    (removeAssoc l k).lookup k' = if k' = k then none else l.lookup k' := by
  induction l with
  | nil =>
    by_cases h : k' = k <;> simp [removeAssoc, List.lookup, h]
  | cons p rest ih =>
    obtain ⟨k0, v0⟩ := p
    simp only [removeAssoc] at ih ⊢
    rw [List.filter_cons]
    by_cases h0 : k0 = k
    · subst h0
      have hb0 : ((k0, v0).1 != k0) = false := by simp
      rw [hb0, if_neg (by simp)]
      rw [ih]
      by_cases h : k' = k0
      · simp [h]
      · have hb : (k' == k0) = false := beq_eq_false_iff_ne.mpr h
        simp [h, List.lookup, hb]
    · have hb0 : ((k0, v0).1 != k) = true := by
        simp [bne]
        exact h0
      rw [hb0, if_pos rfl]
      by_cases h : k' = k0
      · subst h
        have hk : ¬ k' = k := h0
        simp [List.lookup, hk]
      · have hb : (k' == k0) = false := beq_eq_false_iff_ne.mpr h
        simp [List.lookup, hb, ih]

theorem jsStrictEq_eq {a b : Json} (h : jsStrictEq a b = true) : a = b := by
  cases a <;> cases b <;> simp_all [jsStrictEq]

theorem jsStrictEq_self {a : Json} (h : isPrimitive a = true) :
    jsStrictEq a a = true := by
  cases a <;> simp_all [jsStrictEq, isPrimitive]

theorem jsStrictEqOpt_eq {a b : Option Json} (h : jsStrictEqOpt a b = true) :
    a = b := by
  match a, b with
  | some x, some y => exact congrArg some (jsStrictEq_eq h)
  | none, none => rfl
  | some x, none => exact absurd h (by simp [jsStrictEqOpt])
  | none, some y => exact absurd h (by simp [jsStrictEqOpt])

theorem uuidMatches_eq {item d : Json} (h : uuidMatches item d = true) :
    getField item "uuid" = getField d "uuid" :=
  jsStrictEqOpt_eq h

theorem getField_setField_ne (j : Json) (k k' : String) (v : Json)
    (h : k' ≠ k) : getField (setField j k v) k' = getField j k' := by
  cases j with
  | obj fields =>
      show (setAssoc fields k v).lookup k' = fields.lookup k'
      rw [lookup_setAssoc, if_neg h]
  | null => rfl
  | bool b => rfl
  | num n => rfl
  | str s => rfl
  | arr es => rfl

theorem getField_setField_self (fields : List (String × Json)) (k : String)
    (v : Json) : getField (setField (.obj fields) k v) k = some v := by
  show (setAssoc fields k v).lookup k = some v
  rw [lookup_setAssoc, if_pos rfl]

/-! ## Reconciliation-loop lemmas -/

theorem bool_eq_false {b : Bool} (h : ¬ b = true) : b = false := by
  cases b
  · rfl
  · exact absurd rfl h

theorem descriptorSelfOk_parts {d : Json} (h : descriptorSelfOk d = true) :
    uuidMatches d d = true ∧ pathEq d d = true ∧
    (∃ u, getField d "uuid" = some u) ∧ (∃ p, getField d "path" = some p) := by
  simp only [descriptorSelfOk, Bool.and_eq_true] at h
  exact ⟨h.1.1.1, h.1.1.2, Option.isSome_iff_exists.mp h.1.2,
    Option.isSome_iff_exists.mp h.2⟩

theorem goodDescriptorsB_cons {d : Json} {rest : List Json}
    (h : goodDescriptorsB (d :: rest) = true) :
    descriptorSelfOk d = true ∧
    (∀ d' ∈ rest, uuidMatches d' d = false ∧ uuidMatches d d' = false) ∧
    goodDescriptorsB rest = true := by
  simp only [goodDescriptorsB, Bool.and_eq_true, List.all_eq_true] at h
  refine ⟨h.1.1, ?_, h.2⟩
  intro d' hd'
  have h2 := h.1.2 d' hd'
  simp only [Bool.and_eq_true, Bool.not_eq_true'] at h2
  exact h2

theorem uuidMatches_setField_path (it v d : Json) :
    uuidMatches (setField it "path" v) d = uuidMatches it d := by
  unfold uuidMatches
  rw [getField_setField_ne it "path" "uuid" v (by decide)]

theorem isObjB_of_getField_some {j : Json} {k : String} {v : Json}
    (h : getField j k = some v) : isObjB j = true := by
  cases j <;> first | rfl | simp [getField] at h

theorem getField_setField_self_of_obj {j : Json} (hobj : isObjB j = true)
    (k : String) (v : Json) : getField (setField j k v) k = some v := by
  cases j <;> simp [isObjB] at hobj
  exact getField_setField_self _ _ _

theorem find?_updateFirstPath_self (L : List Json) (d : Json)
    (hd : descriptorSelfOk d = true)
    (hfound : (L.find? (fun item => uuidMatches item d)).isSome = true) :
    foundWithPath (updateFirstPath L d) d := by
  obtain ⟨hudd, hpdd, ⟨u, hu⟩, ⟨p, hp⟩⟩ := descriptorSelfOk_parts hd
  induction L with
  | nil => simp [List.find?] at hfound
  | cons it0 rest ih =>
    by_cases hm : uuidMatches it0 d = true
    · have hgu : getField it0 "uuid" = some u := by rw [uuidMatches_eq hm, hu]
      have hobj : isObjB it0 = true := isObjB_of_getField_some hgu
      have hset : getField (setField it0 "path" (getFieldD d "path")) "path" =
          some (getFieldD d "path") := getField_setField_self_of_obj hobj _ _
      have hm' : uuidMatches (setField it0 "path" (getFieldD d "path")) d = true := by
        rw [uuidMatches_setField_path]; exact hm
      refine ⟨setField it0 "path" (getFieldD d "path"), ?_, ?_⟩
      · simp only [updateFirstPath, if_pos hm]
        exact List.find?_cons_of_pos _ hm'
      · have hpd : getFieldD d "path" = p := by simp [getFieldD, hp]
        have hpeq : jsStrictEqOpt (some p) (some p) = true := by
          have h2 := hpdd
          unfold pathEq at h2
          rw [hp] at h2
          exact h2
        unfold pathEq
        rw [hset, hp, hpd]
        exact hpeq
    · have hm0 : uuidMatches it0 d = false := bool_eq_false hm
      have hfrest : (rest.find? (fun item => uuidMatches item d)).isSome = true := by
        rw [List.find?_cons_of_neg _ (by simp [hm0])] at hfound
        exact hfound
      obtain ⟨it, hf, hpq⟩ := ih hfrest
      refine ⟨it, ?_, hpq⟩
      simp only [updateFirstPath, if_neg (by simp [hm0] : ¬ uuidMatches it0 d = true)]
      rw [List.find?_cons_of_neg _ (by simp [hm0])]
      exact hf

theorem foundWithPath_updateFirstPath_other (L : List Json) (d d' : Json)
    (hP : foundWithPath L d) (hne : uuidMatches d' d = false) :
    foundWithPath (updateFirstPath L d') d := by
  obtain ⟨it, hf, hpq⟩ := hP
  induction L with
  | nil => simp [List.find?] at hf
  | cons it0 rest ih =>
    by_cases hm' : uuidMatches it0 d' = true
    · by_cases hm : uuidMatches it0 d = true
      · exfalso
        have h1 : getField it0 "uuid" = getField d' "uuid" := uuidMatches_eq hm'
        have h2 : uuidMatches d' d = true := by
          unfold uuidMatches
          rw [← h1]
          exact hm
        rw [h2] at hne
        exact Bool.noConfusion hne
      · have hm0 : uuidMatches it0 d = false := bool_eq_false hm
        have hfrest : rest.find? (fun item => uuidMatches item d) = some it := by
          rw [List.find?_cons_of_neg _ (by simp [hm0])] at hf
          exact hf
        refine ⟨it, ?_, hpq⟩
        simp only [updateFirstPath, if_pos hm']
        rw [List.find?_cons_of_neg _
          (by simp [uuidMatches_setField_path, hm0])]
        exact hfrest
    · have hm0' : uuidMatches it0 d' = false := bool_eq_false hm'
      by_cases hm : uuidMatches it0 d = true
      · have hit : it = it0 := by
          rw [@List.find?_cons_of_pos _ (fun item => uuidMatches item d) it0 rest hm] at hf
          exact (Option.some.inj hf).symm
        refine ⟨it0, ?_, hit ▸ hpq⟩
        simp only [updateFirstPath, if_neg (by simp [hm0'] : ¬ uuidMatches it0 d' = true)]
        exact List.find?_cons_of_pos _ hm
      · have hm0 : uuidMatches it0 d = false := bool_eq_false hm
        have hfrest : rest.find? (fun item => uuidMatches item d) = some it := by
          rw [List.find?_cons_of_neg _ (by simp [hm0])] at hf
          exact hf
        obtain ⟨it2, hf2, hpq2⟩ := ih hfrest
        refine ⟨it2, ?_, hpq2⟩
        simp only [updateFirstPath, if_neg (by simp [hm0'] : ¬ uuidMatches it0 d' = true)]
        rw [List.find?_cons_of_neg _ (by simp [hm0])]
        exact hf2

theorem reconcileStep_found_eq (acc : List Json × Bool) (d existing : Json)
    (hf : acc.1.find? (fun item => uuidMatches item d) = some existing)
    (hpq : pathEq existing d = true) :
    reconcileStep acc d = acc := by
  unfold reconcileStep
  rw [hf]
  simp [hpq]

theorem reconcileStep_found_ne (acc : List Json × Bool) (d existing : Json)
    (hf : acc.1.find? (fun item => uuidMatches item d) = some existing)
    (hpq : pathEq existing d = false) :
    reconcileStep acc d = (updateFirstPath acc.1 d, true) := by
  unfold reconcileStep
  rw [hf]
  simp [hpq]

theorem reconcileStep_notfound (acc : List Json × Bool) (d : Json)
    (hf : acc.1.find? (fun item => uuidMatches item d) = none) :
    reconcileStep acc d = (acc.1 ++ [d], true) := by
  unfold reconcileStep
  rw [hf]

theorem reconcileEnvs_cons (d : Json) (rest : List Json) (acc : List Json × Bool) :
    reconcileEnvs (d :: rest) acc = reconcileEnvs rest (reconcileStep acc d) := rfl

theorem reconcileStep_preserves (acc : List Json × Bool) (d d' : Json)
    (hP : foundWithPath acc.1 d) (hne : uuidMatches d' d = false) :
    foundWithPath (reconcileStep acc d').1 d := by
  rcases hf' : acc.1.find? (fun item => uuidMatches item d') with _ | existing
  · rw [reconcileStep_notfound acc d' hf']
    obtain ⟨it, hf, hpq⟩ := hP
    refine ⟨it, ?_, hpq⟩
    rw [List.find?_append, hf]
    rfl
  · by_cases hpq' : pathEq existing d' = true
    · rw [reconcileStep_found_eq acc d' existing hf' hpq']
      exact hP
    · rw [reconcileStep_found_ne acc d' existing hf' (bool_eq_false hpq')]
      exact foundWithPath_updateFirstPath_other acc.1 d d' hP hne

theorem reconcileStep_establishes (acc : List Json × Bool) (d : Json)
    (hd : descriptorSelfOk d = true) :
    foundWithPath (reconcileStep acc d).1 d := by
  obtain ⟨hudd, hpdd, _, _⟩ := descriptorSelfOk_parts hd
  rcases hf : acc.1.find? (fun item => uuidMatches item d) with _ | existing
  · rw [reconcileStep_notfound acc d hf]
    refine ⟨d, ?_, hpdd⟩
    rw [List.find?_append, hf]
    simp [List.find?, hudd]
  · by_cases hpq : pathEq existing d = true
    · rw [reconcileStep_found_eq acc d existing hf hpq]
      exact ⟨existing, hf, hpq⟩
    · rw [reconcileStep_found_ne acc d existing hf (bool_eq_false hpq)]
      exact find?_updateFirstPath_self acc.1 d hd (by rw [hf]; rfl)

theorem reconcileEnvs_preserves (ds : List Json) (acc : List Json × Bool)
    (d : Json) (hP : foundWithPath acc.1 d)
    (hne : ∀ d' ∈ ds, uuidMatches d' d = false) :
    foundWithPath (reconcileEnvs ds acc).1 d := by
  induction ds generalizing acc with
  | nil => exact hP
  | cons d' rest ih =>
    rw [reconcileEnvs_cons]
    exact ih (reconcileStep acc d')
      (reconcileStep_preserves acc d d' hP (hne d' (by simp)))
      (fun x hx => hne x (by simp [hx]))

theorem reconcileEnvs_establishes (ds : List Json) (acc : List Json × Bool)
    (hgood : goodDescriptorsB ds = true) :
    ∀ d ∈ ds, foundWithPath (reconcileEnvs ds acc).1 d := by
  induction ds generalizing acc with
  | nil => intro d hd; simp at hd
  | cons d0 rest ih =>
    obtain ⟨hself, hdisj, hgrest⟩ := goodDescriptorsB_cons hgood
    intro d hd
    rcases List.mem_cons.mp hd with rfl | hmem
    · rw [reconcileEnvs_cons]
      exact reconcileEnvs_preserves rest _ d
        (reconcileStep_establishes acc d hself)
        (fun d' hd' => (hdisj d' hd').1)
    · rw [reconcileEnvs_cons]
      exact ih _ hgrest d hmem

theorem reconcileEnvs_sticky (ds : List Json) :
    ∀ L : List Json, (reconcileEnvs ds (L, true)).2 = true := by
  induction ds with
  | nil => intro L; rfl
  | cons d rest ih =>
    intro L
    rw [reconcileEnvs_cons]
    rcases hf : L.find? (fun item => uuidMatches item d) with _ | existing
    · rw [reconcileStep_notfound (L, true) d hf]
      exact ih _
    · by_cases hpq : pathEq existing d = true
      · rw [reconcileStep_found_eq (L, true) d existing hf hpq]
        exact ih _
      · rw [reconcileStep_found_ne (L, true) d existing hf (bool_eq_false hpq)]
        exact ih _

theorem reconcileEnvs_nochange (ds : List Json) (L : List Json)
    (h : ∀ d ∈ ds, foundWithPath L d) :
    reconcileEnvs ds (L, false) = (L, false) := by
  induction ds with
  | nil => rfl
  | cons d rest ih =>
    obtain ⟨it, hf, hpq⟩ := h d (by simp)
    rw [reconcileEnvs_cons, reconcileStep_found_eq (L, false) d it hf hpq]
    exact ih (fun d' hd' => h d' (by simp [hd']))

theorem reconcileEnvs_false_elim (ds : List Json) (L : List Json)
    (h : (reconcileEnvs ds (L, false)).2 = false) :
    (∀ d ∈ ds, foundWithPath L d) ∧ (reconcileEnvs ds (L, false)).1 = L := by
  induction ds with
  | nil => exact ⟨by simp, rfl⟩
  | cons d rest ih =>
    rw [reconcileEnvs_cons] at h
    rcases hf : L.find? (fun item => uuidMatches item d) with _ | existing
    · rw [reconcileStep_notfound (L, false) d hf, reconcileEnvs_sticky] at h
      exact absurd h (by simp)
    · by_cases hpq : pathEq existing d = true
      · rw [reconcileStep_found_eq (L, false) d existing hf hpq] at h
        obtain ⟨hall, heq⟩ := ih h
        refine ⟨?_, ?_⟩
        · intro d' hd'
          rcases List.mem_cons.mp hd' with rfl | hm
          · exact ⟨existing, hf, hpq⟩
          · exact hall d' hm
        · rw [reconcileEnvs_cons,
            reconcileStep_found_eq (L, false) d existing hf hpq]
          exact heq
      · rw [reconcileStep_found_ne (L, false) d existing hf (bool_eq_false hpq),
          reconcileEnvs_sticky] at h
        exact absurd h (by simp)

theorem reconcileEnvs_append_all :
    ∀ (ds L : List Json) (c : Bool), goodDescriptorsB ds = true →
      (∀ d ∈ ds, ∀ it ∈ L, uuidMatches it d = false) →
      (reconcileEnvs ds (L, c)).1 = L ++ ds := by
  intro ds
  induction ds with
  | nil => intro L c _ _; simp [reconcileEnvs]
  | cons d0 rest ih =>
    intro L c hgood hno
    obtain ⟨hself, hdisj, hgrest⟩ := goodDescriptorsB_cons hgood
    have hf : L.find? (fun item => uuidMatches item d0) = none :=
      List.find?_eq_none.mpr (fun it hit => by simp [hno d0 (by simp) it hit])
    rw [reconcileEnvs_cons, reconcileStep_notfound (L, c) d0 hf]
    rw [ih (L ++ [d0]) true hgrest ?_]
    · simp
    · intro d hd it hit
      rcases List.mem_append.mp hit with hmem | hmem
      · exact hno d (by simp [hd]) it hmem
      · rcases List.mem_singleton.mp hmem with rfl
        exact (hdisj d hd).2

theorem foundWithPath_self_list (ds : List Json)
    (hgood : goodDescriptorsB ds = true) :
    ∀ d ∈ ds, foundWithPath ds d := by
  induction ds with
  | nil => intro d hd; simp at hd
  | cons d0 rest ih =>
    obtain ⟨hself, hdisj, hgrest⟩ := goodDescriptorsB_cons hgood
    obtain ⟨hudd, hpdd, _, _⟩ := descriptorSelfOk_parts hself
    intro d hd
    rcases List.mem_cons.mp hd with rfl | hmem
    · exact ⟨d, List.find?_cons_of_pos _ hudd, hpdd⟩
    · obtain ⟨it, hf, hpq⟩ := ih hgrest d hmem
      refine ⟨it, ?_, hpq⟩
      rw [List.find?_cons_of_neg _ (by simp [(hdisj d hmem).2])]
      exact hf

/-! ## Settings-file lemmas -/

theorem bool_or_false_left {a b : Bool} (h : (a || b) = false) : a = false := by
  cases a
  · rfl
  · simp at h

theorem bool_or_false_right {a b : Bool} (h : (a || b) = false) : b = false := by
  cases b
  · rfl
  · simp at h

theorem bool_not_false {b : Bool} (h : (!b) = false) : b = true := by
  cases b
  · simp at h
  · rfl

theorem parsedSettings_some {slot : Option FileData} {j : Json}
    (h : parsedSettings slot = some j) :
    slot = some (.jsonData j) ∧ isNullB j = false := by
  rcases slot with _ | fd
  · simp [parsedSettings] at h
  · rcases fd with j0 | _
    · simp only [parsedSettings] at h
      by_cases hn : isNullB j0 = true
      · rw [if_pos hn] at h
        exact absurd h (by simp)
      · rw [if_neg hn] at h
        cases Option.some.inj h
        exact ⟨rfl, bool_eq_false hn⟩
    · simp [parsedSettings] at h

theorem json_obj_of (j : Json) (htr : truthy j = true) (hty : typeofObject j = true)
    (hnn : isNullB j = false) (hna : ∀ xs, j ≠ .arr xs) :
    ∃ fs, j = .obj fs := by
  cases j with
  | obj fs => exact ⟨fs, rfl⟩
  | arr es => exact absurd rfl (hna es)
  | null => simp [isNullB] at hnn
  | bool b => simp [typeofObject] at hty
  | num n => simp [typeofObject] at hty
  | str s => simp [typeofObject] at hty

theorem truthy_getFieldD_uuid {d : Json} (h : truthyField d "uuid" = true) :
    truthy (getFieldD d "uuid") = true := by
  unfold truthyField at h
  rcases hu : getField d "uuid" with _ | u
  · rw [hu] at h
    exact absurd h (by simp)
  · rw [hu] at h
    simp [getFieldD, hu]
    exact h

theorem truthyField_of_getField_some {j : Json} {k : String} {v : Json}
    (h : getField j k = some v) : truthyField j k = truthy v := by
  unfold truthyField
  rw [h]

theorem truthyField_eq_of_getField {j j' : Json} {k : String}
    (h : getField j k = getField j' k) : truthyField j k = truthyField j' k := by
  unfold truthyField
  rw [h]

theorem isObjB_exists {j : Json} (h : isObjB j = true) :
    ∃ fs, j = Json.obj fs := by
  cases j with
  | obj fs => exact ⟨fs, rfl⟩
  | null => simp [isObjB] at h
  | bool b => simp [isObjB] at h
  | num n => simp [isObjB] at h
  | str s => simp [isObjB] at h
  | arr es => simp [isObjB] at h

theorem origEnvs_buildDefaultSettings (ds : List Json) :
    origEnvs (buildDefaultSettings ds) = ds := rfl

theorem active_buildDefaultSettings (d0 : Json) (rest : List Json) :
    getField (buildDefaultSettings (d0 :: rest)) "activeEnvironmentUuid" =
      some (getFieldD d0 "uuid") := rfl

theorem writeBack_isObj (fs : List (String × Json)) (F : List Json) (sa : Bool)
    (ds : List Json) :
    isObjB (writeBackSettings (.obj fs) F sa ds) = true := by
  cases sa <;> rfl

theorem writeBack_environments (fs : List (String × Json)) (F : List Json)
    (sa : Bool) (ds : List Json) :
    getField (writeBackSettings (.obj fs) F sa ds) "environments" =
      some (.arr F) := by
  cases sa
  · show getField (setField (Json.obj fs) "environments" (Json.arr F))
        "environments" = some (Json.arr F)
    exact getField_setField_self _ _ _
  · show getField (setField (setField (Json.obj fs) "environments" (Json.arr F))
        "activeEnvironmentUuid"
        (match ds with | d :: _ => getFieldD d "uuid" | [] => Json.null))
        "environments" = some (Json.arr F)
    rw [getField_setField_ne _ _ _ _ (by decide)]
    exact getField_setField_self _ _ _

theorem writeBack_active_true (fs : List (String × Json)) (F : List Json)
    (ds : List Json) (d0 : Json) (rest : List Json) (hds : ds = d0 :: rest) :
    getField (writeBackSettings (.obj fs) F true ds) "activeEnvironmentUuid" =
      some (getFieldD d0 "uuid") := by
  subst hds
  show getField (setField (setField (Json.obj fs) "environments" (Json.arr F))
      "activeEnvironmentUuid" (getFieldD d0 "uuid")) "activeEnvironmentUuid" =
      some (getFieldD d0 "uuid")
  exact getField_setField_self _ _ _

theorem writeBack_active_false (fs : List (String × Json)) (F : List Json)
    (ds : List Json) :
    getField (writeBackSettings (.obj fs) F false ds) "activeEnvironmentUuid" =
      getField (.obj fs) "activeEnvironmentUuid" := by
  show getField (setField (Json.obj fs) "environments" (Json.arr F))
      "activeEnvironmentUuid" = getField (Json.obj fs) "activeEnvironmentUuid"
  exact getField_setField_ne _ _ _ _ (by decide)

theorem settingsGood_default (ds : List Json)
    (hgood : goodDescriptorsB ds = true)
    (htr : ∀ d ∈ ds, truthyField d "uuid" = true) :
    settingsGood ds (some (.jsonData (buildDefaultSettings ds))) := by
  refine ⟨buildDefaultSettings ds, rfl, rfl, ?_, ?_⟩
  · show ∀ d ∈ ds, foundWithPath (origEnvs (buildDefaultSettings ds)) d
    rw [origEnvs_buildDefaultSettings]
    exact foundWithPath_self_list ds hgood
  · intro hne
    rcases hds : ds with _ | ⟨d0, rest⟩
    · exact absurd hds hne
    · rw [truthyField_of_getField_some (active_buildDefaultSettings d0 rest)]
      exact truthy_getFieldD_uuid (htr d0 (by rw [hds]; simp))

theorem active_of_sa_false {fs : List (String × Json)} {ds : List Json}
    (hsaf : (!truthyField (.obj fs) "activeEnvironmentUuid" &&
      ds.length != 0) = false)
    (hne : ds ≠ []) :
    truthyField (.obj fs) "activeEnvironmentUuid" = true := by
  have hlen : (ds.length != 0) = true := by
    rcases ds with _ | _
    · exact absurd rfl hne
    · simp
  rw [hlen, Bool.and_true] at hsaf
  exact bool_not_false hsaf

theorem ensureSettingsFile_obj (ds : List Json) (slot : Option FileData)
    (fs : List (String × Json))
    (hps : parsedSettings slot = some (.obj fs)) :
    ensureSettingsFile ds slot =
      (if (reconcileEnvs ds (origEnvs (.obj fs), false)).2 ||
          (!truthyField (.obj fs) "activeEnvironmentUuid" && ds.length != 0) then
        (some (.jsonData (writeBackSettings (.obj fs)
          (reconcileEnvs ds (origEnvs (.obj fs), false)).1
          (!truthyField (.obj fs) "activeEnvironmentUuid" && ds.length != 0)
          ds)), 1)
      else (slot, 0)) := by
  unfold ensureSettingsFile
  rw [hps]
  rfl

theorem ensureSettingsFile_default (ds : List Json) (slot : Option FileData)
    (hps : parsedSettings slot = none) :
    ensureSettingsFile ds slot =
      (some (.jsonData (buildDefaultSettings ds)), 1) := by
  unfold ensureSettingsFile
  rw [hps]

theorem ensureSettingsFile_nonobject (ds : List Json) (slot : Option FileData)
    (j : Json) (hps : parsedSettings slot = some j)
    (hto : (truthy j && typeofObject j) = false) :
    ensureSettingsFile ds slot =
      (some (.jsonData (buildDefaultSettings ds)), 1) := by
  unfold ensureSettingsFile
  rw [hps]
  simp [hto]

theorem ensureSettingsFile_establishes (ds : List Json) (slot : Option FileData)
    (hgood : goodDescriptorsB ds = true)
    (htr : ∀ d ∈ ds, truthyField d "uuid" = true)
    (harr : ∀ xs, slot ≠ some (.jsonData (.arr xs))) :
    settingsGood ds (ensureSettingsFile ds slot).1 := by
  rcases hps : parsedSettings slot with _ | j
  · rw [ensureSettingsFile_default ds slot hps]
    exact settingsGood_default ds hgood htr
  · obtain ⟨hslot, hnn⟩ := parsedSettings_some hps
    by_cases hto : (truthy j && typeofObject j) = true
    · have hna : ∀ xs, j ≠ .arr xs := fun xs hx => harr xs (hx ▸ hslot)
      have hto2 := hto
      rw [Bool.and_eq_true] at hto2
      obtain ⟨fs, rfl⟩ := json_obj_of j hto2.1 hto2.2 hnn hna
      rw [ensureSettingsFile_obj ds slot fs hps]
      by_cases hch : ((reconcileEnvs ds (origEnvs (.obj fs), false)).2 ||
          (!truthyField (.obj fs) "activeEnvironmentUuid" && ds.length != 0)) = true
      · rw [if_pos hch]
        refine ⟨writeBackSettings (.obj fs)
            (reconcileEnvs ds (origEnvs (.obj fs), false)).1
            (!truthyField (.obj fs) "activeEnvironmentUuid" && ds.length != 0) ds,
          rfl, writeBack_isObj _ _ _ _, ?_, ?_⟩
        · have horig : origEnvs (writeBackSettings (.obj fs)
              (reconcileEnvs ds (origEnvs (.obj fs), false)).1
              (!truthyField (.obj fs) "activeEnvironmentUuid" && ds.length != 0) ds) =
              (reconcileEnvs ds (origEnvs (.obj fs), false)).1 := by
            unfold origEnvs
            rw [writeBack_environments]
          rw [horig]
          exact reconcileEnvs_establishes ds (origEnvs (.obj fs), false) hgood
        · intro hne
          by_cases hsat : (!truthyField (.obj fs) "activeEnvironmentUuid" &&
              ds.length != 0) = true
          · rcases hds : ds with _ | ⟨d0, rest⟩
            · exact absurd hds hne
            · rw [← hds]
              have hgf : getField (writeBackSettings (.obj fs)
                  (reconcileEnvs ds (origEnvs (.obj fs), false)).1
                  (!truthyField (.obj fs) "activeEnvironmentUuid" && ds.length != 0) ds)
                  "activeEnvironmentUuid" = some (getFieldD d0 "uuid") := by
                rw [hsat]
                exact writeBack_active_true fs _ ds d0 rest hds
              rw [truthyField_of_getField_some hgf]
              exact truthy_getFieldD_uuid (htr d0 (by rw [hds]; simp))
          · have hsaf := bool_eq_false hsat
            have htf := active_of_sa_false hsaf hne
            have hgf : getField (writeBackSettings (.obj fs)
                (reconcileEnvs ds (origEnvs (.obj fs), false)).1
                (!truthyField (.obj fs) "activeEnvironmentUuid" && ds.length != 0) ds)
                "activeEnvironmentUuid" =
                getField (.obj fs) "activeEnvironmentUuid" := by
              rw [hsaf]
              exact writeBack_active_false fs _ ds
            rw [truthyField_eq_of_getField hgf]
            exact htf
      · rw [if_neg hch]
        have hchf := bool_eq_false hch
        have hc1 := bool_or_false_left hchf
        have hsaf := bool_or_false_right hchf
        have helim := reconcileEnvs_false_elim ds (origEnvs (.obj fs)) hc1
        refine ⟨.obj fs, hslot, rfl, helim.1, fun hne => active_of_sa_false hsaf hne⟩
    · rw [ensureSettingsFile_nonobject ds slot j hps (bool_eq_false hto)]
      exact settingsGood_default ds hgood htr

theorem ensureSettingsFile_rerun (ds : List Json) (slot : Option FileData)
    (hsg : settingsGood ds slot) :
    ensureSettingsFile ds slot = (slot, 0) := by
  obtain ⟨J, hJ, hobj, hfound, hact⟩ := hsg
  obtain ⟨fs, rfl⟩ := isObjB_exists hobj
  have hps : parsedSettings slot = some (.obj fs) := by
    rw [hJ]
    rfl
  rw [ensureSettingsFile_obj ds slot fs hps]
  have hrec := reconcileEnvs_nochange ds (origEnvs (.obj fs)) hfound
  have hc : (reconcileEnvs ds (origEnvs (.obj fs), false)).2 = false := by
    rw [hrec]
  have hsa : (!truthyField (.obj fs) "activeEnvironmentUuid" &&
      ds.length != 0) = false := by
    rcases hds : ds with _ | ⟨d0, rest⟩
    · simp
    · rw [hact (by rw [hds]; simp)]
      simp
  rw [hc, hsa]
  simp

/-! ## Environment-file phase lemmas -/

theorem validEnvB_BuildEnvironment (name : String) (port : Int) (uuid : String)
    (h : uuid ≠ "") : validEnvB (BuildEnvironment name port uuid) = true := by
  have hg : getField (BuildEnvironment name port uuid) "uuid" =
      some (.str uuid) := rfl
  simp [validEnvB, BuildEnvironment, truthy, typeofObject,
    truthyField_of_getField_some hg, truthyField, getField, List.lookup, h]

theorem ensureEnvironmentFile_cases (cfg : Config) (supply : Nat → String)
    (files : List (String × FileData)) (fileName : String) (idx : Nat)
    (env : Json) (files1 : List (String × FileData)) (n1 : Nat)
    (h : ensureEnvironmentFile cfg supply files fileName idx =
      .ok (env, files1, n1)) :
    (lookupFile files fileName = some (.jsonData env) ∧ validEnvB env = true ∧
      files1 = files ∧ n1 = 0) ∨
    (lookupFile files fileName = none ∧
      env = BuildEnvironment (chosenEnvName cfg idx) (cfg.defaultPort + idx)
        (supply idx) ∧
      files1 = setAssoc files fileName (.jsonData env) ∧ n1 = 1) := by
  unfold ensureEnvironmentFile at h
  rcases hl : lookupFile files fileName with _ | fd
  · rw [hl] at h
    dsimp only at h
    simp only [Except.ok.injEq, Prod.mk.injEq] at h
    obtain ⟨henv, hfiles, hn⟩ := h
    subst henv
    exact Or.inr ⟨rfl, rfl, hfiles.symm, hn.symm⟩
  · rw [hl] at h
    rcases fd with parsed | _
    · dsimp only at h
      by_cases hv : validEnvB parsed = true
      · rw [if_pos hv] at h
        simp only [Except.ok.injEq, Prod.mk.injEq] at h
        obtain ⟨henv, hfiles, hn⟩ := h
        subst henv
        exact Or.inl ⟨rfl, hv, hfiles.symm, hn.symm⟩
      · rw [if_neg hv] at h
        exact absurd h (by simp)
    · dsimp only at h
      exact absurd h (by simp)

theorem ensureEnvFiles_frame (cfg : Config) (supply : Nat → String) :
    ∀ (names : List String) (idx : Nat) (files : List (String × FileData))
      (envs : List Json) (files' : List (String × FileData)) (w : Nat),
      ensureEnvFiles cfg supply names idx files = .ok (envs, files', w) →
      ∀ n fd, lookupFile files n = some fd → lookupFile files' n = some fd := by
  intro names
  induction names with
  | nil =>
    intro idx files envs files' w h n fd hl
    unfold ensureEnvFiles at h
    simp only [Except.ok.injEq, Prod.mk.injEq] at h
    rw [← h.2.1]
    exact hl
  | cons fileName rest ih =>
    intro idx files envs files' w h n fd hl
    unfold ensureEnvFiles at h
    rcases h1 : ensureEnvironmentFile cfg supply files fileName idx with
      e | ⟨env, files1, n1⟩
    · rw [h1] at h
      exact absurd h (by simp)
    · rw [h1] at h
      dsimp only at h
      rcases h2 : ensureEnvFiles cfg supply rest (idx + 1) files1 with
        e | ⟨envs2, files2, n2⟩
      · rw [h2] at h
        exact absurd h (by simp)
      · rw [h2] at h
        dsimp only at h
        simp only [Except.ok.injEq, Prod.mk.injEq] at h
        have hstep : lookupFile files1 n = some fd := by
          rcases ensureEnvironmentFile_cases cfg supply files fileName idx env
              files1 n1 h1 with
            ⟨_, _, hfe, _⟩ | ⟨hnone, _, hfe, _⟩
          · rw [hfe]
            exact hl
          · rw [hfe]
            show (setAssoc files fileName (.jsonData env)).lookup n = some fd
            rw [lookup_setAssoc]
            by_cases hn : n = fileName
            · rw [hn] at hl
              simp [hl] at hnone
            · rw [if_neg hn]
              exact hl
        have hrest := ih (idx + 1) files1 envs2 files2 n2 h2 n fd hstep
        rw [← h.2.1]
        exact hrest

theorem ensureEnvFiles_post (cfg : Config) (supply : Nat → String) :
    ∀ (names : List String) (idx : Nat) (files : List (String × FileData))
      (envs : List Json) (files' : List (String × FileData)) (w : Nat),
      (∀ i, supply i ≠ "") →
      ensureEnvFiles cfg supply names idx files = .ok (envs, files', w) →
      List.Forall₂ (fun n e => envFileOk files' n e) names envs := by
  intro names
  induction names with
  | nil =>
    intro idx files envs files' w _ h
    unfold ensureEnvFiles at h
    simp only [Except.ok.injEq, Prod.mk.injEq] at h
    rw [← h.1]
    exact List.Forall₂.nil
  | cons fileName rest ih =>
    intro idx files envs files' w hsup h
    unfold ensureEnvFiles at h
    rcases h1 : ensureEnvironmentFile cfg supply files fileName idx with
      e | ⟨env, files1, n1⟩
    · rw [h1] at h
      exact absurd h (by simp)
    · rw [h1] at h
      dsimp only at h
      rcases h2 : ensureEnvFiles cfg supply rest (idx + 1) files1 with
        e | ⟨envs2, files2, n2⟩
      · rw [h2] at h
        exact absurd h (by simp)
      · rw [h2] at h
        dsimp only at h
        simp only [Except.ok.injEq, Prod.mk.injEq] at h
        obtain ⟨henvs, hfiles', _⟩ := h
        subst henvs
        subst hfiles'
        have hmid : lookupFile files1 fileName = some (.jsonData env) ∧
            validEnvB env = true := by
          rcases ensureEnvironmentFile_cases cfg supply files fileName idx env
              files1 n1 h1 with
            ⟨hsome, hv, hfe, _⟩ | ⟨hnone, henv, hfe, _⟩
          · rw [hfe]
            exact ⟨hsome, hv⟩
          · constructor
            · rw [hfe]
              show (setAssoc files fileName (.jsonData env)).lookup fileName =
                some (.jsonData env)
              rw [lookup_setAssoc, if_pos rfl]
            · rw [henv]
              exact validEnvB_BuildEnvironment _ _ _ (hsup idx)
        refine List.Forall₂.cons ⟨?_, hmid.2⟩ (ih (idx + 1) files1 envs2 files2 n2 hsup h2)
        exact ensureEnvFiles_frame cfg supply rest (idx + 1) files1 envs2 files2
          n2 h2 fileName _ hmid.1

theorem ensureEnvFiles_rerun (cfg : Config) (supply' : Nat → String)
    (names : List String) (envs : List Json) (files : List (String × FileData))
    (hf : List.Forall₂ (fun n e => envFileOk files n e) names envs) :
    ∀ idx : Nat, ensureEnvFiles cfg supply' names idx files = .ok (envs, files, 0) := by
  induction hf with
  | nil => intro idx; rfl
  | @cons n e ns es h1 h2 ih =>
    intro idx
    have he : ensureEnvironmentFile cfg supply' files n idx = .ok (e, files, 0) := by
      unfold ensureEnvironmentFile
      rw [h1.1]
      dsimp only
      rw [if_pos h1.2]
    unfold ensureEnvFiles
    rw [he]
    dsimp only
    rw [ih (idx + 1)]

theorem descriptors_truthy (names : List String) (envs : List Json)
    (files' : List (String × FileData))
    (hf : List.Forall₂ (fun n e => envFileOk files' n e) names envs) :
    ∀ d ∈ mkDescriptors names envs, truthyField d "uuid" = true := by
  unfold mkDescriptors
  induction hf with
  | nil => intro d hd; simp at hd
  | @cons n e ns es h1 h2 ih =>
    intro d hd
    simp only [List.zip_cons_cons, List.map_cons, List.mem_cons] at hd
    rcases hd with rfl | hd
    · have hg : getField (mkDescriptor (getFieldD e "uuid") n) "uuid" =
          some (getFieldD e "uuid") := rfl
      rw [truthyField_of_getField_some hg]
      have hv := h1.2
      simp only [validEnvB, Bool.and_eq_true] at hv
      exact truthy_getFieldD_uuid hv.2
    · exact ih d hd

/-! ## Bootstrap assembly lemmas -/

theorem ensureInitialState_ok_parts (cfg : Config) (supply : Nat → String)
    (s : Store) (st : InitState) (s' : Store) (w : Nat)
    (h : ensureInitialState cfg supply s = .ok (st, s', w)) :
    ∃ envs files1 w1,
      ensureEnvFiles cfg supply (parseDataFileNames cfg.dataFiles) 0 s.envFiles =
        .ok (envs, files1, w1) ∧
      st = { dataFileNames := parseDataFileNames cfg.dataFiles,
             descriptors := mkDescriptors (parseDataFileNames cfg.dataFiles) envs } ∧
      s' = { envFiles := files1,
             settings := (ensureSettingsFile st.descriptors s.settings).1 } ∧
      w = w1 + (ensureSettingsFile st.descriptors s.settings).2 := by
  unfold ensureInitialState at h
  dsimp only at h
  rcases h1 : ensureEnvFiles cfg supply (parseDataFileNames cfg.dataFiles) 0
      s.envFiles with e | ⟨envs, files1, w1⟩
  · rw [h1] at h
    exact absurd h (by simp)
  · rw [h1] at h
    dsimp only at h
    rcases h2 : ensureSettingsFile
        (mkDescriptors (parseDataFileNames cfg.dataFiles) envs) s.settings with
      ⟨slot1, w2⟩
    rw [h2] at h
    dsimp only at h
    simp only [Except.ok.injEq, Prod.mk.injEq] at h
    obtain ⟨hst, hs', hw⟩ := h
    subst hst
    subst hs'
    refine ⟨envs, files1, w1, rfl, rfl, ?_, ?_⟩
    · show Store.mk files1 slot1 = Store.mk files1 (ensureSettingsFile
        (mkDescriptors (parseDataFileNames cfg.dataFiles) envs) s.settings).1
      rw [h2]
    · show w = w1 + (ensureSettingsFile
        (mkDescriptors (parseDataFileNames cfg.dataFiles) envs) s.settings).2
      rw [h2]
      exact hw.symm

theorem ensureInitialState_build (cfg : Config) (supply : Nat → String)
    (s : Store) (envs : List Json) (files1 : List (String × FileData)) (w1 : Nat)
    (h1 : ensureEnvFiles cfg supply (parseDataFileNames cfg.dataFiles) 0
      s.envFiles = .ok (envs, files1, w1)) :
    ensureInitialState cfg supply s = .ok
      ({ dataFileNames := parseDataFileNames cfg.dataFiles,
         descriptors := mkDescriptors (parseDataFileNames cfg.dataFiles) envs },
       { envFiles := files1,
         settings := (ensureSettingsFile
           (mkDescriptors (parseDataFileNames cfg.dataFiles) envs) s.settings).1 },
       w1 + (ensureSettingsFile
         (mkDescriptors (parseDataFileNames cfg.dataFiles) envs) s.settings).2) := by
  unfold ensureInitialState
  dsimp only
  rw [h1]

/-- Counterexample to C2 as stated: a configuration and an on-disk state (a
settings file holding the JSON array `[]`) for which the first bootstrap run
completes — writing the environment file and rewriting the settings file —
yet the second run against the produced state still performs one settings
write (`JSON.stringify` drops the expando `environments` property of an
array, so the reconciliation never becomes visible on disk). -/
theorem c2_counterexample :
    ensureInitialState oneFileCfg constSupply arrSettingsStore =
      .ok (oneInitState, arrSettingsStore1, 2) ∧
    ensureInitialState oneFileCfg constSupply arrSettingsStore1 =
      .ok (oneInitState, arrSettingsStore1, 1) ∧
    (1 : Nat) ≠ 0 := by
  refine ⟨?_, ?_, ?_⟩
  · rfl
  · rfl
  · decide

/-- C2 (amended): the bootstrap is idempotent provided (a) the uuid supply
yields non-empty uuids, (b) the pre-existing settings file is not the
serialization of a JSON array, and (c) the descriptor list the first run
builds is well-behaved for `===`-reconciliation (self-comparable primitive
uuids and paths, pairwise-distinct uuids) — conditions every fresh bootstrap
satisfies.  The second run then succeeds with the same resolved state, the
same store, and zero filesystem writes. -/
theorem c2_amended_idempotent (cfg : Config) (supply supply' : Nat → String)
    (s : Store) (st : InitState) (s' : Store) (w : Nat)
    (hsup : ∀ i, supply i ≠ "")
    (hrun1 : ensureInitialState cfg supply s = .ok (st, s', w))
    (harr : ∀ xs, s.settings ≠ some (.jsonData (.arr xs)))
    (hgood : goodDescriptorsB st.descriptors = true) :
    ensureInitialState cfg supply' s' = .ok (st, s', 0) := by
  obtain ⟨envs, files1, w1, h1, hst, hs', hw⟩ :=
    ensureInitialState_ok_parts cfg supply s st s' w hrun1
  have hpost := ensureEnvFiles_post cfg supply (parseDataFileNames cfg.dataFiles)
    0 s.envFiles envs files1 w1 hsup h1
  have htr := descriptors_truthy (parseDataFileNames cfg.dataFiles) envs files1 hpost
  have hD : st.descriptors = mkDescriptors (parseDataFileNames cfg.dataFiles) envs := by
    rw [hst]
  have hsg : settingsGood st.descriptors s'.settings := by
    have hsg0 := ensureSettingsFile_establishes st.descriptors s.settings hgood
      (by rw [hD]; exact htr) harr
    have : s'.settings = (ensureSettingsFile st.descriptors s.settings).1 := by
      rw [hs']
    rw [this]
    exact hsg0
  have hsre := ensureSettingsFile_rerun st.descriptors s'.settings hsg
  have henv : s'.envFiles = files1 := by rw [hs']
  have hrerun : ensureEnvFiles cfg supply' (parseDataFileNames cfg.dataFiles) 0
      s'.envFiles = .ok (envs, s'.envFiles, 0) := by
    rw [henv]
    exact ensureEnvFiles_rerun cfg supply' _ envs files1 hpost 0
  have hbuild := ensureInitialState_build cfg supply' s' envs s'.envFiles 0 hrerun
  rw [hbuild]
  have hset2 : ensureSettingsFile
      (mkDescriptors (parseDataFileNames cfg.dataFiles) envs) s'.settings =
      (s'.settings, 0) := by
    rw [← hD]
    exact hsre
  rw [hset2, hst]
  rfl

/-- Witness for C2 at a concrete fresh bootstrap (empty data directory). -/
theorem c2_amended_idempotent_witness :
    (∀ i : Nat, constSupply i ≠ "") ∧
    ensureInitialState oneFileCfg constSupply emptyStore =
      .ok (oneInitState, freshStore1, 2) ∧
    (∀ xs, emptyStore.settings ≠ some (.jsonData (.arr xs))) ∧
    goodDescriptorsB oneInitState.descriptors = true ∧
    ensureInitialState oneFileCfg constSupply freshStore1 =
      .ok (oneInitState, freshStore1, 0) := by
  refine ⟨?_, rfl, ?_, ?_, ?_⟩
  · intro i
    show ("u" : String) ≠ ""
    decide
  · intro xs
    simp [emptyStore]
  · decide
  · exact c2_amended_idempotent oneFileCfg constSupply constSupply emptyStore
      oneInitState freshStore1 2
      (fun i => by show ("u" : String) ≠ ""; decide) rfl
      (fun xs => by simp [emptyStore]) (by decide)

/-! ## Fresh-bootstrap lemmas (C3) -/

theorem uuidMatches_mk_str (u1 n1 u2 n2 : String) :
    uuidMatches (mkDescriptor (.str u1) n1) (mkDescriptor (.str u2) n2) =
      (u1 == u2) := rfl

theorem descriptorSelfOk_mk (u n : String) :
    descriptorSelfOk (mkDescriptor (.str u) n) = true := by
  simp only [descriptorSelfOk, Bool.and_eq_true]
  refine ⟨⟨⟨?_, ?_⟩, rfl⟩, rfl⟩
  · rw [uuidMatches_mk_str]
    simp
  · have h2 : pathEq (mkDescriptor (.str u) n) (mkDescriptor (.str u) n) =
        (n == n) := rfl
    rw [h2]
    simp

theorem freshDescriptors_mem (supply : Nat → String) :
    ∀ (names : List String) (idx : Nat) (d : Json),
      d ∈ freshDescriptors supply idx names →
      ∃ k n, idx ≤ k ∧ d = mkDescriptor (.str (supply k)) n := by
  intro names
  induction names with
  | nil => intro idx d hd; simp [freshDescriptors] at hd
  | cons n rest ih =>
    intro idx d hd
    rcases List.mem_cons.mp hd with rfl | hd
    · exact ⟨idx, n, Nat.le_refl idx, rfl⟩
    · obtain ⟨k, n', hk, hde⟩ := ih (idx + 1) d hd
      exact ⟨k, n', Nat.le_of_succ_le hk, hde⟩

theorem goodDescriptorsB_fresh (supply : Nat → String)
    (hinj : ∀ m n, supply m = supply n → m = n) :
    ∀ (names : List String) (idx : Nat),
      goodDescriptorsB (freshDescriptors supply idx names) = true := by
  intro names
  induction names with
  | nil => intro idx; rfl
  | cons n rest ih =>
    intro idx
    show goodDescriptorsB
      (mkDescriptor (.str (supply idx)) n :: freshDescriptors supply (idx + 1) rest) = true
    simp only [goodDescriptorsB, Bool.and_eq_true, List.all_eq_true]
    refine ⟨⟨descriptorSelfOk_mk _ _, ?_⟩, ih (idx + 1)⟩
    intro d' hd'
    obtain ⟨k, n', hk, rfl⟩ := freshDescriptors_mem supply rest (idx + 1) d' hd'
    have hne : supply k ≠ supply idx := by
      intro he
      have := hinj k idx he
      omega
    rw [uuidMatches_mk_str, uuidMatches_mk_str]
    simp [beq_eq_false_iff_ne.mpr hne, beq_eq_false_iff_ne.mpr (Ne.symm hne)]

theorem freshDescriptors_length (supply : Nat → String) :
    ∀ (names : List String) (idx : Nat),
      (freshDescriptors supply idx names).length = names.length := by
  intro names
  induction names with
  | nil => intro idx; rfl
  | cons n rest ih => intro idx; simp [freshDescriptors, ih (idx + 1)]

theorem freshDescriptors_pairwise_ne (supply : Nat → String)
    (hinj : ∀ m n, supply m = supply n → m = n) :
    ∀ (names : List String) (idx : Nat),
      (freshDescriptors supply idx names).Pairwise
        (fun a b => getField a "uuid" ≠ getField b "uuid") := by
  intro names
  induction names with
  | nil => intro idx; exact List.Pairwise.nil
  | cons n rest ih =>
    intro idx
    refine List.Pairwise.cons ?_ (ih (idx + 1))
    intro d' hd'
    obtain ⟨k, n', hk, rfl⟩ := freshDescriptors_mem supply rest (idx + 1) d' hd'
    show some (Json.str (supply idx)) ≠ some (Json.str (supply k))
    intro he
    have hs : supply idx = supply k := by
      have := Option.some.inj he
      exact Json.str.inj this
    have := hinj idx k hs
    omega

theorem freshDescriptors_uuid_eq_env (cfg : Config) (supply : Nat → String) :
    ∀ (names : List String) (idx : Nat),
      List.Forall₂ (fun d e => getField d "uuid" = getField e "uuid")
        (freshDescriptors supply idx names) (freshEnvs cfg supply idx names) := by
  intro names
  induction names with
  | nil => intro idx; exact List.Forall₂.nil
  | cons n rest ih =>
    intro idx
    exact List.Forall₂.cons rfl (ih (idx + 1))

theorem mkDescriptors_fresh (cfg : Config) (supply : Nat → String) :
    ∀ (names : List String) (idx : Nat),
      mkDescriptors names (freshEnvs cfg supply idx names) =
        freshDescriptors supply idx names := by
  intro names
  induction names with
  | nil => intro idx; rfl
  | cons n rest ih =>
    intro idx
    show mkDescriptor (getFieldD (createdEnv cfg supply idx) "uuid") n ::
        mkDescriptors rest (freshEnvs cfg supply (idx + 1) rest) =
      mkDescriptor (.str (supply idx)) n :: freshDescriptors supply (idx + 1) rest
    rw [ih (idx + 1)]
    rfl

theorem ensureEnvFiles_fresh (cfg : Config) (supply : Nat → String) :
    ∀ (names : List String) (idx : Nat) (files : List (String × FileData)),
      names.Nodup → (∀ n ∈ names, lookupFile files n = none) →
      ∃ files', ensureEnvFiles cfg supply names idx files =
        .ok (freshEnvs cfg supply idx names, files', names.length) := by
  intro names
  induction names with
  | nil => intro idx files _ _; exact ⟨files, rfl⟩
  | cons n rest ih =>
    intro idx files hnd hfresh
    have he : ensureEnvironmentFile cfg supply files n idx =
        .ok (createdEnv cfg supply idx,
          setAssoc files n (.jsonData (createdEnv cfg supply idx)), 1) := by
      unfold ensureEnvironmentFile
      rw [hfresh n (by simp)]
      rfl
    have hfresh' : ∀ n' ∈ rest,
        lookupFile (setAssoc files n (.jsonData (createdEnv cfg supply idx))) n' =
          none := by
      intro n' hn'
      show (setAssoc files n (.jsonData (createdEnv cfg supply idx))).lookup n' = none
      rw [lookup_setAssoc]
      have hne : n' ≠ n := fun h => (List.nodup_cons.mp hnd).1 (h ▸ hn')
      rw [if_neg hne]
      exact hfresh n' (by simp [hn'])
    obtain ⟨files', hrest⟩ := ih (idx + 1) _ (List.nodup_cons.mp hnd).2 hfresh'
    refine ⟨files', ?_⟩
    unfold ensureEnvFiles
    rw [he]
    dsimp only
    rw [hrest]
    show Except.ok (createdEnv cfg supply idx :: freshEnvs cfg supply (idx + 1) rest,
      files', 1 + rest.length) = _
    rw [Nat.add_comm 1 rest.length]
    rfl

theorem reconcileEnvs_snd_cons_nil (d : Json) (rest : List Json) :
    (reconcileEnvs (d :: rest) ([], false)).2 = true := by
  rw [reconcileEnvs_cons, reconcileStep_notfound ([], false) d (by simp [List.find?])]
  exact reconcileEnvs_sticky rest _

/-- Counterexample to C3 as stated: two configured data files whose names
coincide yield a descriptor list of length 2 referring to one file, but the
reconciled settings document contains only one descriptor, not N = 2. -/
theorem c3_counterexample :
    (parseDataFileNames "a,a").length = 2 ∧
    ensureInitialState
        { dataDir := "/data", envSubdir := "environments", dataFiles := "a,a",
          defaultPort := 3000, defaultEnvName := "Docker environment",
          envNames := "", cliWatch := true, cliDisableLogToFile := true,
          cliPollingInterval := "", cliExtraArgs := [] }
        constSupply
        { envFiles := [], settings := some (.jsonData (.obj [("environments", .arr [])])) } =
      .ok ({ dataFileNames := ["a.json", "a.json"],
             descriptors := [oneDescriptor, oneDescriptor] },
           { envFiles := [("a.json", .jsonData oneEnvDoc)],
             settings := some (.jsonData (.obj
               [("environments", .arr [oneDescriptor]),
                ("activeEnvironmentUuid", .str "u")])) },
           2) ∧
    ([oneDescriptor] : List Json).length ≠ 2 := by
  refine ⟨rfl, rfl, by decide⟩

/-- C3 (amended): for every configuration whose parsed data-file names are
pairwise distinct, reconciling against an existing parsable settings object
with zero prior descriptors, starting from a directory where none of the
desired files exist yet (so every environment document is freshly created
with an injectively supplied uuid), yields a settings document with exactly
N descriptors — one per file, in order, each carrying the uuid of its
environment document, pairwise distinct. -/
theorem c3_amended_descriptors (cfg : Config) (supply : Nat → String)
    (s : Store) (fs : List (String × Json))
    (hnodup : (parseDataFileNames cfg.dataFiles).Nodup)
    (hfresh : ∀ n ∈ parseDataFileNames cfg.dataFiles,
      lookupFile s.envFiles n = none)
    (hinj : ∀ m n, supply m = supply n → m = n)
    (hne : ∀ i, supply i ≠ "")
    (hset : s.settings = some (.jsonData (.obj fs)))
    (henvs : getField (.obj fs) "environments" = some (.arr [])) :
    ∃ s' : Store,
      ensureInitialState cfg supply s = .ok
        ({ dataFileNames := parseDataFileNames cfg.dataFiles,
           descriptors := freshDescriptors supply 0 (parseDataFileNames cfg.dataFiles) },
         s', (parseDataFileNames cfg.dataFiles).length + 1) ∧
      (∃ J, s'.settings = some (.jsonData J) ∧
        origEnvs J = freshDescriptors supply 0 (parseDataFileNames cfg.dataFiles)) ∧
      (freshDescriptors supply 0 (parseDataFileNames cfg.dataFiles)).length =
        (parseDataFileNames cfg.dataFiles).length ∧
      (freshDescriptors supply 0 (parseDataFileNames cfg.dataFiles)).Pairwise
        (fun a b => getField a "uuid" ≠ getField b "uuid") ∧
      List.Forall₂ (fun d e => getField d "uuid" = getField e "uuid")
        (freshDescriptors supply 0 (parseDataFileNames cfg.dataFiles))
        (freshEnvs cfg supply 0 (parseDataFileNames cfg.dataFiles)) ∧
      List.Forall₂ (fun n e => lookupFile s'.envFiles n = some (.jsonData e))
        (parseDataFileNames cfg.dataFiles)
        (freshEnvs cfg supply 0 (parseDataFileNames cfg.dataFiles)) := by
  obtain ⟨files', h1⟩ := ensureEnvFiles_fresh cfg supply
    (parseDataFileNames cfg.dataFiles) 0 s.envFiles hnodup hfresh
  have hps : parsedSettings s.settings = some (.obj fs) := by
    rw [hset]
    rfl
  have horig0 : origEnvs (.obj fs) = [] := by
    unfold origEnvs
    rw [henvs]
  have hgood := goodDescriptorsB_fresh supply hinj (parseDataFileNames cfg.dataFiles) 0
  rcases hnames : parseDataFileNames cfg.dataFiles with _ | ⟨n0, nrest⟩
  · exact absurd hnames (parseDataFileNames_ne_nil cfg.dataFiles)
  · rw [hnames] at h1 hgood
    have hfinal : (reconcileEnvs (freshDescriptors supply 0 (n0 :: nrest))
        ([], false)).1 = freshDescriptors supply 0 (n0 :: nrest) := by
      have := reconcileEnvs_append_all (freshDescriptors supply 0 (n0 :: nrest))
        [] false hgood (by intro d _ it hit; simp at hit)
      simpa using this
    have hchanged : (reconcileEnvs (freshDescriptors supply 0 (n0 :: nrest))
        ([], false)).2 = true := by
      show (reconcileEnvs (mkDescriptor (.str (supply 0)) n0 ::
        freshDescriptors supply 1 nrest) ([], false)).2 = true
      exact reconcileEnvs_snd_cons_nil _ _
    have hsetfile : ensureSettingsFile (freshDescriptors supply 0 (n0 :: nrest))
        s.settings =
        (some (.jsonData (writeBackSettings (.obj fs)
          (freshDescriptors supply 0 (n0 :: nrest))
          (!truthyField (.obj fs) "activeEnvironmentUuid" &&
            (freshDescriptors supply 0 (n0 :: nrest)).length != 0)
          (freshDescriptors supply 0 (n0 :: nrest)))), 1) := by
      rw [ensureSettingsFile_obj _ s.settings fs hps, horig0]
      rw [if_pos (by rw [hchanged]; simp)]
      rw [hfinal]
    have hbuild := ensureInitialState_build cfg supply s
      (freshEnvs cfg supply 0 (n0 :: nrest)) files' (n0 :: nrest).length
      (by rw [hnames]; exact h1)
    rw [hnames] at hbuild
    rw [mkDescriptors_fresh cfg supply (n0 :: nrest) 0] at hbuild
    rw [hsetfile] at hbuild
    refine ⟨{ envFiles := files',
              settings := some (.jsonData (writeBackSettings (.obj fs)
                (freshDescriptors supply 0 (n0 :: nrest))
                (!truthyField (.obj fs) "activeEnvironmentUuid" &&
                  (freshDescriptors supply 0 (n0 :: nrest)).length != 0)
                (freshDescriptors supply 0 (n0 :: nrest)))) }, ?_, ?_, ?_, ?_, ?_, ?_⟩
    · exact hbuild
    · refine ⟨writeBackSettings (.obj fs)
        (freshDescriptors supply 0 (n0 :: nrest))
        (!truthyField (.obj fs) "activeEnvironmentUuid" &&
          (freshDescriptors supply 0 (n0 :: nrest)).length != 0)
        (freshDescriptors supply 0 (n0 :: nrest)), rfl, ?_⟩
      unfold origEnvs
      rw [writeBack_environments]
    · exact freshDescriptors_length supply (n0 :: nrest) 0
    · exact freshDescriptors_pairwise_ne supply hinj (n0 :: nrest) 0
    · exact freshDescriptors_uuid_eq_env cfg supply (n0 :: nrest) 0
    · have hpost := ensureEnvFiles_post cfg supply (n0 :: nrest) 0 s.envFiles
        (freshEnvs cfg supply 0 (n0 :: nrest)) files' (n0 :: nrest).length
        hne h1
      exact hpost.imp (fun a b hab => hab.1)

theorem idSupply_inj : ∀ m n, idSupply m = idSupply n → m = n := by
  intro m n h
  have h2 : List.replicate (m + 1) 'u' = List.replicate (n + 1) 'u' :=
    congrArg String.data h
  have h3 := congrArg List.length h2
  simp only [List.length_replicate] at h3
  omega

theorem idSupply_ne (i : Nat) : idSupply i ≠ "" := by
  intro h
  have h2 := congrArg String.data h
  simp [idSupply] at h2

/-- Witness for C3 at a concrete two-file fresh bootstrap. -/
theorem c3_amended_descriptors_witness :
    (parseDataFileNames twoFileCfg.dataFiles).Nodup ∧
    (∀ n ∈ parseDataFileNames twoFileCfg.dataFiles,
      lookupFile objSettingsStore.envFiles n = none) ∧
    (∀ m n, idSupply m = idSupply n → m = n) ∧
    (∀ i, idSupply i ≠ "") ∧
    objSettingsStore.settings =
      some (.jsonData (.obj [("environments", .arr [])])) ∧
    getField (.obj [("environments", Json.arr [])]) "environments" =
      some (.arr []) ∧
    (∃ s' : Store,
      ensureInitialState twoFileCfg idSupply objSettingsStore = .ok
        ({ dataFileNames := parseDataFileNames twoFileCfg.dataFiles,
           descriptors := freshDescriptors idSupply 0
             (parseDataFileNames twoFileCfg.dataFiles) },
         s', (parseDataFileNames twoFileCfg.dataFiles).length + 1) ∧
      (∃ J, s'.settings = some (.jsonData J) ∧
        origEnvs J = freshDescriptors idSupply 0
          (parseDataFileNames twoFileCfg.dataFiles)) ∧
      (freshDescriptors idSupply 0 (parseDataFileNames twoFileCfg.dataFiles)).length =
        (parseDataFileNames twoFileCfg.dataFiles).length ∧
      (freshDescriptors idSupply 0 (parseDataFileNames twoFileCfg.dataFiles)).Pairwise
        (fun a b => getField a "uuid" ≠ getField b "uuid") ∧
      List.Forall₂ (fun d e => getField d "uuid" = getField e "uuid")
        (freshDescriptors idSupply 0 (parseDataFileNames twoFileCfg.dataFiles))
        (freshEnvs twoFileCfg idSupply 0 (parseDataFileNames twoFileCfg.dataFiles)) ∧
      List.Forall₂ (fun n e => lookupFile s'.envFiles n = some (.jsonData e))
        (parseDataFileNames twoFileCfg.dataFiles)
        (freshEnvs twoFileCfg idSupply 0 (parseDataFileNames twoFileCfg.dataFiles))) := by
  refine ⟨by decide, fun n _ => rfl, idSupply_inj, idSupply_ne, rfl, rfl, ?_⟩
  exact c3_amended_descriptors twoFileCfg idSupply objSettingsStore
    [("environments", .arr [])] (by decide) (fun n _ => rfl) idSupply_inj
    idSupply_ne rfl rfl

/-! ## C4: storage-backend parity -/

theorem goodKey_parts {k : String} (h : goodKey k = true) :
    ensureStorageKey k = k ∧ k ≠ "" := by
  unfold goodKey at h
  rw [Bool.and_eq_true] at h
  refine ⟨eq_of_beq h.1, ?_⟩
  intro he
  have h2 := h.2
  rw [he] at h2
  simp at h2

theorem runNetOp_writeEnv (ns : Store) (env : Json) (dp : Option String)
    (b : Bool) (u : String)
    (hu : getField env "uuid" = some (.str u))
    (hdp : ∀ p, dp = some p → p = u)
    (hfix : ensureStorageKey u = u) (hne : u ≠ "")
    (hobj : isObjB env = true) :
    runNetOp ns (.writeEnv env dp b) =
      (.done, { ns with
        envFiles := setAssoc ns.envFiles (ensureJsonExtension u) (.jsonData env) }) := by
  obtain ⟨fs, rfl⟩ := isObjB_exists hobj
  rcases dp with _ | p
  · unfold runNetOp
    dsimp only
    rw [hu]
    dsimp only
    rw [hfix, if_neg hne,
      if_pos (show (truthy (Json.obj fs) && typeofObject (Json.obj fs)) = true from rfl)]
  · have hp := hdp p rfl
    subst hp
    unfold runNetOp
    dsimp only
    rw [hfix, if_neg hne,
      if_pos (show (truthy (Json.obj fs) && typeofObject (Json.obj fs)) = true from rfl)]

theorem runLocOp_writeEnv (ls : LocalStore) (env : Json) (dp : Option String)
    (b : Bool) (u : String)
    (hu : getField env "uuid" = some (.str u)) :
    runLocOp ls (.writeEnv env dp b) =
      (.done, { ls with idb := setAssoc ls.idb u env }) := by
  unfold runLocOp
  dsimp only
  rw [hu]

theorem parity_step (K : List String) (ns : Store) (ls : LocalStore)
    (op : StorageOp)
    (hwf : wfOp op = true)
    (hkeys : ∀ k ∈ opKeys op, k ∈ K)
    (hsep : ∀ k ∈ K, ∀ k' ∈ K,
      ensureJsonExtension k = ensureJsonExtension k' → k = k')
    (hC : backendCorr K ns ls) :
    (runNetOp ns op).1 = (runLocOp ls op).1 ∧
      backendCorr K (runNetOp ns op).2 (runLocOp ls op).2 := by
  cases op with
  | readEnv key =>
    unfold wfOp at hwf
    obtain ⟨hfix, hne⟩ := goodKey_parts hwf
    have hkK : key ∈ K := hkeys key (by simp [opKeys])
    have hEk := hC.1 key hkK
    constructor
    · show (runNetOp ns (.readEnv key)).1 = (runLocOp ls (.readEnv key)).1
      unfold runNetOp runLocOp
      dsimp only
      rw [hfix, if_neg hne]
      rcases hlk : ls.idb.lookup key with _ | env
      · rw [hlk] at hEk
        dsimp only [Option.map] at hEk
        rw [hEk]
      · rw [hlk] at hEk
        dsimp only [Option.map] at hEk
        rw [hEk]
    · have hns : (runNetOp ns (.readEnv key)).2 = ns := by
        unfold runNetOp
        dsimp only
        rw [hfix, if_neg hne]
        rcases lookupFile ns.envFiles (ensureJsonExtension key) with _ | fd
        · rfl
        · cases fd <;> rfl
      rw [hns]
      exact hC
  | deleteEnv key =>
    unfold wfOp at hwf
    obtain ⟨hfix, hne⟩ := goodKey_parts hwf
    have hkK : key ∈ K := hkeys key (by simp [opKeys])
    have hns : (runNetOp ns (.deleteEnv key)).2 =
        { ns with envFiles := removeAssoc ns.envFiles (ensureJsonExtension key) } := by
      unfold runNetOp
      dsimp only
      rw [hfix, if_neg hne]
    have hr1 : (runNetOp ns (.deleteEnv key)).1 = .done := by
      unfold runNetOp
      dsimp only
      rw [hfix, if_neg hne]
    constructor
    · rw [hr1]
      rfl
    · rw [hns]
      refine ⟨?_, hC.2⟩
      intro k' hk'
      show (removeAssoc ns.envFiles (ensureJsonExtension key)).lookup
          (ensureJsonExtension k') =
        ((removeAssoc ls.idb key).lookup k').map FileData.jsonData
      rw [lookup_removeAssoc, lookup_removeAssoc]
      by_cases hkk : k' = key
      · rw [if_pos (by rw [hkk]), if_pos hkk]
        rfl
      · have hjj : ¬ ensureJsonExtension k' = ensureJsonExtension key :=
          fun hj => hkk (hsep k' hk' key hkK hj)
        rw [if_neg hjj, if_neg hkk]
        exact hC.1 k' hk'
  | writeEnv environment descriptorPath pretty =>
    unfold wfOp at hwf
    dsimp only at hwf
    rcases hu : getField environment "uuid" with _ | uv
    · rw [hu] at hwf
      dsimp only at hwf
      simp at hwf
    · cases uv with
      | str u =>
        rw [hu] at hwf
        dsimp only at hwf
        rw [Bool.and_eq_true] at hwf
        obtain ⟨h1, hobj⟩ := hwf
        rw [Bool.and_eq_true] at h1
        obtain ⟨hg, hdp⟩ := h1
        obtain ⟨hfix, hne⟩ := goodKey_parts hg
        have hdp' : ∀ p, descriptorPath = some p → p = u := by
          intro p hp
          rw [hp] at hdp
          dsimp only at hdp
          exact eq_of_beq hdp
        have hkK : u ∈ K := hkeys u (by simp [opKeys, hu])
        have hns := runNetOp_writeEnv ns environment descriptorPath pretty u hu
          hdp' hfix hne hobj
        have hls := runLocOp_writeEnv ls environment descriptorPath pretty u hu
        constructor
        · rw [hns, hls]
        · rw [hns, hls]
          refine ⟨?_, hC.2⟩
          intro k' hk'
          show (setAssoc ns.envFiles (ensureJsonExtension u)
              (.jsonData environment)).lookup (ensureJsonExtension k') =
            ((setAssoc ls.idb u environment).lookup k').map FileData.jsonData
          rw [lookup_setAssoc, lookup_setAssoc]
          by_cases hkk : k' = u
          · rw [if_pos (by rw [hkk]), if_pos hkk]
            rfl
          · have hjj : ¬ ensureJsonExtension k' = ensureJsonExtension u :=
              fun hj => hkk (hsep k' hk' u hkK hj)
            rw [if_neg hjj, if_neg hkk]
            exact hC.1 k' hk'
      | null =>
        rw [hu] at hwf
        dsimp only at hwf
        simp at hwf
      | bool b0 =>
        rw [hu] at hwf
        dsimp only at hwf
        simp at hwf
      | num n0 =>
        rw [hu] at hwf
        dsimp only at hwf
        simp at hwf
      | arr es =>
        rw [hu] at hwf
        dsimp only at hwf
        simp at hwf
      | obj fs0 =>
        rw [hu] at hwf
        dsimp only at hwf
        simp at hwf
  | readSettings =>
    constructor
    · show (runNetOp ns .readSettings).1 = (runLocOp ls .readSettings).1
      rcases hC.2 with ⟨hn1, hn2⟩ | ⟨j, hobj, hs1, hs2⟩
      · unfold runNetOp runLocOp
        rw [hn1, hn2]
      · unfold runNetOp runLocOp
        rw [hs1, hs2]
    · have hns : (runNetOp ns .readSettings).2 = ns := by
        unfold runNetOp
        rcases ns.settings with _ | fd
        · rfl
        · cases fd <;> rfl
      have hls : (runLocOp ls .readSettings).2 = ls := by
        unfold runLocOp
        rcases ls.appSettings with _ | j
        · rfl
        · rfl
      rw [hns, hls]
      exact hC
  | writeSettings v pretty =>
    unfold wfOp at hwf
    obtain ⟨fs, rfl⟩ := isObjB_exists hwf
    constructor
    · rfl
    · refine ⟨?_, Or.inr ⟨Json.obj fs, rfl, rfl, rfl⟩⟩
      intro k' hk'
      exact hC.1 k' hk'

theorem parity_aux (K : List String)
    (hsep : ∀ k ∈ K, ∀ k' ∈ K,
      ensureJsonExtension k = ensureJsonExtension k' → k = k') :
    ∀ (ops : List StorageOp) (ns : Store) (ls : LocalStore),
      (∀ op ∈ ops, wfOp op = true) →
      (∀ op ∈ ops, ∀ k ∈ opKeys op, k ∈ K) →
      backendCorr K ns ls →
      (runNet ns ops).1 = (runLoc ls ops).1 ∧
        backendCorr K (runNet ns ops).2 (runLoc ls ops).2 := by
  intro ops
  induction ops with
  | nil =>
    intro ns ls _ _ hC
    exact ⟨rfl, hC⟩
  | cons op rest ih =>
    intro ns ls hwf hkeys hC
    have hstep := parity_step K ns ls op (hwf op (List.mem_cons_self op rest))
      (hkeys op (List.mem_cons_self op rest)) hsep hC
    have hrest := ih (runNetOp ns op).2 (runLocOp ls op).2
      (fun o ho => hwf o (List.mem_cons_of_mem op ho))
      (fun o ho => hkeys o (List.mem_cons_of_mem op ho))
      hstep.2
    constructor
    · show (runNetOp ns op).1 :: (runNet (runNetOp ns op).2 rest).1 =
        (runLocOp ls op).1 :: (runLoc (runLocOp ls op).2 rest).1
      rw [hstep.1, hrest.1]
    · exact hrest.2

theorem allOpKeys_good (ops : List StorageOp)
    (hwf : ∀ op ∈ ops, wfOp op = true) :
    ∀ k ∈ allOpKeys ops, goodKey k = true := by
  intro k hk
  rw [allOpKeys, List.mem_flatMap] at hk
  obtain ⟨op, hop, hkop⟩ := hk
  have h := hwf op hop
  cases op with
  | readEnv k0 =>
    simp only [opKeys, List.mem_singleton] at hkop
    subst hkop
    exact h
  | deleteEnv k0 =>
    simp only [opKeys, List.mem_singleton] at hkop
    subst hkop
    exact h
  | readSettings => simp [opKeys] at hkop
  | writeSettings v b => simp [opKeys] at hkop
  | writeEnv env dp b =>
    unfold wfOp at h
    unfold opKeys at hkop
    dsimp only at h hkop
    rcases hu : getField env "uuid" with _ | uv
    · rw [hu] at hkop
      dsimp only at hkop
      simp at hkop
    · rw [hu] at h hkop
      cases uv with
      | str u =>
        dsimp only at h hkop
        rw [List.mem_singleton] at hkop
        subst hkop
        rw [Bool.and_eq_true, Bool.and_eq_true] at h
        exact h.1.1
      | null =>
        dsimp only at hkop
        simp at hkop
      | bool b0 =>
        dsimp only at hkop
        simp at hkop
      | num n0 =>
        dsimp only at hkop
        simp at hkop
      | arr es =>
        dsimp only at hkop
        simp at hkop
      | obj fs0 =>
        dsimp only at hkop
        simp at hkop

theorem opKeys_subset_allOpKeys (ops : List StorageOp) :
    ∀ op ∈ ops, ∀ k ∈ opKeys op, k ∈ allOpKeys ops := by
  intro op hop k hk
  rw [allOpKeys, List.mem_flatMap]
  exact ⟨op, hop, hk⟩

/-- C4 counterexample: the same operation sequence — a `writeEnvironmentData`
whose descriptor path `"p"` differs from the environment's uuid `"u"`,
followed by a `readEnvironmentData` of `"u"` — yields different observable
results on the two backends: the networked backend stores the record under
the descriptor path and the read misses (`undefined`), while the embedded
IndexedDB backend keys by the in-line `uuid` and the read returns the
environment. -/
theorem c4_counterexample :
    (runNet emptyStore cexOps).1 = [.done, .envData none] ∧
    (runLoc emptyLocalStore cexOps).1 = [.done, .envData (some cexEnv)] ∧
    OpResult.envData none ≠ OpResult.envData (some cexEnv) := by
  refine ⟨rfl, rfl, fun h => ?_⟩
  injection h with h2
  exact Option.noConfusion h2

/-- C4 (amended): for operation sequences that are well formed — every key is
a sanitizer fixed point, written environments are JSON objects whose
descriptor path (the networked write target) is absent or equal to their
string `uuid`, settings payloads are JSON objects — and whose keys stay
distinct after the `.json` extension is appended, the networked file-system
backend and the embedded IndexedDB/localStorage backend produce identical
observable results from fresh states. -/
theorem c4_amended_backend_parity (ops : List StorageOp)
    (hwf : ∀ op ∈ ops, wfOp op = true)
    (hsep : ∀ k ∈ allOpKeys ops, ∀ k' ∈ allOpKeys ops,
      ensureJsonExtension k = ensureJsonExtension k' → k = k') :
    (runNet emptyStore ops).1 = (runLoc emptyLocalStore ops).1 := by
  have hinit : backendCorr (allOpKeys ops) emptyStore emptyLocalStore := by
    refine ⟨?_, Or.inl ⟨rfl, rfl⟩⟩
    intro k _
    rfl
  exact (parity_aux (allOpKeys ops) hsep ops emptyStore emptyLocalStore hwf
    (opKeys_subset_allOpKeys ops) hinit).1

/-- Witness for the amended C4 parity theorem at a concrete well-formed
operation sequence. -/
theorem c4_amended_backend_parity_witness :
    (∀ op ∈ parityOps, wfOp op = true) ∧
    (∀ k ∈ allOpKeys parityOps, ∀ k' ∈ allOpKeys parityOps,
      ensureJsonExtension k = ensureJsonExtension k' → k = k') ∧
    (runNet emptyStore parityOps).1 = (runLoc emptyLocalStore parityOps).1 := by
  have h1 : ∀ op ∈ parityOps, wfOp op = true := by decide
  have h2 : ∀ k ∈ allOpKeys parityOps, ∀ k' ∈ allOpKeys parityOps,
      ensureJsonExtension k = ensureJsonExtension k' → k = k' := by decide
  exact ⟨h1, h2, c4_amended_backend_parity parityOps h1 h2⟩

end Mockoon
